import Mathlib

/-!
The argument registry and the parse loop of ntt-cmd-arg-parser: a shallow embedding of
`src/src/parser.cpp` and `src/src/parser.hpp`.

Modelling conventions
* `std::vector` is a `List`; a `Scope<ArgumentData>` element mutated through a
  reference is a functional update of the list at that index.
* `u32` / `i64` indices are `Nat` / `Int`.  `argc` is a `u32`, and the cursor
  never exceeds `argc`, so no index computation of `parse` wraps; the registry
  is taken to hold fewer than `2^32` records (the source comments that it
  "usually will not exceed 10").
* `argc`/`argv` are one list of tokens, `argc` being its length.
* A thrown `std::invalid_argument` is a value of `InvalidArgument`; an
  operation returns the parser state it leaves behind together with the way it
  ended (`Result`).
* The native `union ArgumentValue` is a record with one slot per member.  Every
  access in the source selects the member by the record's `type`, which never
  changes after the declaration, so each record only ever reads the member it
  last wrote and the byte overlap of the members is not observable.
* `f32` is carried as a bit pattern; `std::stoi` and `std::stof` are parameters
  (`stoi`, `stof`), `none` standing for "the conversion threw".
-/

namespace NTT

/-! ## Data model -/

/-- The macro `NTT_ARGUMENT_INVALID_INDEX`. -/
def NTT_ARGUMENT_INVALID_INDEX : Int := -1

/-- The enum `ArgParserType`. -/
inductive ArgParserType where
  | STRING
  | I32
  | F32
  | BOOL
deriving DecidableEq, Repr

/-- A 32-bit float, carried as its bit pattern (it is only stored and copied). -/
structure f32 where
  bits : Nat
deriving DecidableEq, Repr

/-- The union `ArgumentValue`, one slot per member. -/
structure ArgumentValue where
  i32Value : Int
  f32Value : f32
  boolValue : Bool
deriving DecidableEq, Repr

/-- The constructor `ArgumentValue() : i32Value(0)`: all bytes zero. -/
def ArgumentValue.init : ArgumentValue :=
  { i32Value := 0, f32Value := { bits := 0 }, boolValue := false }

/-- The struct `ArgumentData`. -/
structure ArgumentData where
  triggerKeys : List String
  description : String
  stringValue : String
  defaultStringValue : String
  type : ArgParserType
  value : ArgumentValue
  defaultValue : ArgumentValue
  isRequired : Bool
  provided : Bool
deriving DecidableEq, Repr

/-- The class `ArgParser` together with its private part `ArgParserPrivate`. -/
structure ArgParser where
  description : String
  arguments : List ArgumentData
  requiredArgumentIndexes : List Nat
  m_isParsed : Bool
deriving DecidableEq, Repr

/-- The `std::invalid_argument` exceptions of the module, one constructor per message:
* `keyNotFound key`: "The key {} is not found";
* `notFollowedByValue type keys`: "The string / i32 / f32 argument {} is not followed by a value";
* `typeNotSupported`: "The type is not supported";
* `requiredNotProvided keys`: "The required argument {} is not provided";
* `keyIsNotA typeName keys`: "The key {} is not a typeName". -/
inductive InvalidArgument where
  | keyNotFound (key : String)
  | notFollowedByValue (type : ArgParserType) (triggerKeys : List String)
  | typeNotSupported
  | requiredNotProvided (triggerKeys : List String)
  | keyIsNotA (typeName : String) (triggerKeys : List String)
deriving DecidableEq, Repr

/-- How a call ends: it returns a value, it throws, or it indexes a vector out of
range (which C++ leaves undefined). -/
inductive Result (α : Type) where
  | returned (value : α)
  | thrown (e : InvalidArgument)
  | undefinedBehaviour
deriving DecidableEq, Repr

/-! ## Registry -/

/-- The scan of `searchByKey` over the records from index `i` on. -/
def searchByKeyFrom (key : String) : List ArgumentData → Nat → Int
  | [], _ => NTT_ARGUMENT_INVALID_INDEX
  | argument :: rest, i =>
    if argument.triggerKeys.any (fun triggerKey => triggerKey == key) then (i : Int)
    else searchByKeyFrom key rest (i + 1)

/-- The method `ArgParserPrivate::searchByKey`. -/
def ArgParser.searchByKey (p : ArgParser) (key : String) : Int :=
  searchByKeyFrom key p.arguments 0

/-- The constructor `ArgParser::ArgParser(description)`. -/
def ArgParser.create (description : String) : ArgParser :=
  { description := description, arguments := [], requiredArgumentIndexes := [], m_isParsed := false }

/-- The macro `NTT_ARGUMENT_ADD_ARGUMENT_DEF`; `valueState` is its third parameter,
the assignments that store the default. -/
def NTT_ARGUMENT_ADD_ARGUMENT_DEF (argParserType : ArgParserType)
    (valueState : ArgumentData → ArgumentData) (p : ArgParser)
    (triggerKeys : List String) (description : String) (isRequired : Bool) : ArgParser :=
  let argument : ArgumentData :=
    { triggerKeys := triggerKeys
      description := description
      stringValue := ""
      defaultStringValue := ""
      type := argParserType
      value := ArgumentValue.init
      defaultValue := ArgumentValue.init
      isRequired := isRequired
      provided := false }
  let argument := valueState argument
  let argument := { argument with provided := false }
  let requiredArgumentIndexes :=
    if isRequired then p.requiredArgumentIndexes ++ [p.arguments.length]
    else p.requiredArgumentIndexes
  { p with requiredArgumentIndexes := requiredArgumentIndexes
           arguments := p.arguments ++ [argument] }

/-- The specialisation `addArgument<String>`. -/
def ArgParser.addArgumentString (p : ArgParser) (triggerKeys : List String)
    (description : String) (isRequired : Bool) (defaultValue : String) : ArgParser :=
  NTT_ARGUMENT_ADD_ARGUMENT_DEF .STRING
    (fun argument =>
      { argument with
        stringValue := defaultValue
        defaultStringValue := defaultValue
        value := { argument.value with boolValue := false } })
    p triggerKeys description isRequired

/-- The specialisation `addArgument<i32>`. -/
def ArgParser.addArgumentI32 (p : ArgParser) (triggerKeys : List String)
    (description : String) (isRequired : Bool) (defaultValue : Int) : ArgParser :=
  NTT_ARGUMENT_ADD_ARGUMENT_DEF .I32
    (fun argument =>
      { argument with
        value := { argument.value with i32Value := defaultValue }
        defaultValue := { argument.defaultValue with i32Value := defaultValue }
        stringValue := "" })
    p triggerKeys description isRequired

/-- The specialisation `addArgument<f32>`. -/
def ArgParser.addArgumentF32 (p : ArgParser) (triggerKeys : List String)
    (description : String) (isRequired : Bool) (defaultValue : f32) : ArgParser :=
  NTT_ARGUMENT_ADD_ARGUMENT_DEF .F32
    (fun argument =>
      { argument with
        value := { argument.value with f32Value := defaultValue }
        defaultValue := { argument.defaultValue with f32Value := defaultValue }
        stringValue := "" })
    p triggerKeys description isRequired

/-- The specialisation `addArgument<bool>`. -/
def ArgParser.addArgumentBool (p : ArgParser) (triggerKeys : List String)
    (description : String) (isRequired : Bool) (defaultValue : Bool) : ArgParser :=
  NTT_ARGUMENT_ADD_ARGUMENT_DEF .BOOL
    (fun argument =>
      { argument with
        value := { argument.value with boolValue := defaultValue }
        defaultValue := { argument.defaultValue with boolValue := defaultValue }
        stringValue := "" })
    p triggerKeys description isRequired

/-- One `addArgument<T>` call with its arguments. -/
inductive Declaration where
  | string (triggerKeys : List String) (description : String) (isRequired : Bool)
      (defaultValue : String)
  | i32 (triggerKeys : List String) (description : String) (isRequired : Bool)
      (defaultValue : Int)
  | f32 (triggerKeys : List String) (description : String) (isRequired : Bool)
      (defaultValue : f32)
  | bool (triggerKeys : List String) (description : String) (isRequired : Bool)
      (defaultValue : Bool)
deriving DecidableEq, Repr

/-- Performs one declaration on a parser. -/
def ArgParser.declare (p : ArgParser) : Declaration → ArgParser
  | .string triggerKeys description isRequired defaultValue =>
    p.addArgumentString triggerKeys description isRequired defaultValue
  | .i32 triggerKeys description isRequired defaultValue =>
    p.addArgumentI32 triggerKeys description isRequired defaultValue
  | .f32 triggerKeys description isRequired defaultValue =>
    p.addArgumentF32 triggerKeys description isRequired defaultValue
  | .bool triggerKeys description isRequired defaultValue =>
    p.addArgumentBool triggerKeys description isRequired defaultValue

/-- A freshly declared parser: the constructor followed by the declarations in order. -/
def ArgParser.declared (description : String) (declarations : List Declaration) : ArgParser :=
  declarations.foldl ArgParser.declare (ArgParser.create description)

/-! ## Reset -/

/-- The body of the loop of `ArgParser::reset`: the `switch` on the record's type. -/
def resetArgument (argument : ArgumentData) : ArgumentData :=
  match argument.type with
  | .STRING => { argument with stringValue := argument.defaultStringValue }
  | .I32 =>
    { argument with value := { argument.value with i32Value := argument.defaultValue.i32Value } }
  | .F32 =>
    { argument with value := { argument.value with f32Value := argument.defaultValue.f32Value } }
  | .BOOL =>
    { argument with
      value := { argument.value with boolValue := argument.defaultValue.boolValue } }

/-- The method `ArgParser::reset`. -/
def ArgParser.reset (p : ArgParser) : ArgParser :=
  { p with arguments := p.arguments.map resetArgument }

/-! ## Parse -/

/-- The function `safeStoi`; `stoi` is `std::stoi`, `none` when it throws. -/
def safeStoi (stoi : String → Option Int) (str : String) (defaultValue : Int) : Int :=
  match stoi str with
  | some v => v
  | none => defaultValue

/-- The function `safeStof`; `stof` is `std::stof`, `none` when it throws. -/
def safeStof (stof : String → Option f32) (str : String) (defaultValue : f32) : f32 :=
  match stof str with
  | some v => v
  | none => defaultValue

/-- Writes a record back at `index`: the effect of mutating `impl->arguments[index]`
through the reference `argument`. -/
def ArgParser.setArgument (p : ArgParser) (index : Nat) (argument : ArgumentData) : ArgParser :=
  { p with arguments := p.arguments.set index argument }

/-- How one iteration of the token loop of `parse` ends: it throws, it indexes out of
range, or it moves the cursor by one (`i++` of the loop header only) or by two (the
`i++` of the body as well). -/
inductive Iteration where
  | thrown (e : InvalidArgument)
  | undefinedBehaviour
  | advance1 (p : ArgParser)
  | advance2 (p : ArgParser)
deriving DecidableEq, Repr

/-- The body of the token loop of `ArgParser::parse` at cursor `i`: `arg` is `argv[i]`
and `rest` is `argv[i+1 ..]`, so `i + 1 >= argc` is `rest = []` and `argv[i + 1]` is the
head of `rest`. -/
def parseIteration (stoi : String → Option Int) (stof : String → Option f32)
    (p : ArgParser) (arg : String) (rest : List String) : Iteration :=
  let currentIndex := p.searchByKey arg
  if currentIndex = NTT_ARGUMENT_INVALID_INDEX then
    .thrown (.keyNotFound arg)
  else
    match p.arguments[currentIndex.toNat]? with
    | none => .undefinedBehaviour
    | some argument =>
      match argument.type with
      | .STRING =>
        match rest with
        | [] => .thrown (.notFollowedByValue .STRING argument.triggerKeys)
        | next :: _ =>
          .advance2 (p.setArgument currentIndex.toNat
            { argument with stringValue := next, provided := true })
      | .I32 =>
        match rest with
        | [] => .thrown (.notFollowedByValue .I32 argument.triggerKeys)
        | next :: _ =>
          .advance2 (p.setArgument currentIndex.toNat
            { argument with
              value := { argument.value with
                         i32Value := safeStoi stoi next argument.defaultValue.i32Value }
              provided := true })
      | .F32 =>
        match rest with
        | [] => .thrown (.notFollowedByValue .F32 argument.triggerKeys)
        | next :: _ =>
          .advance2 (p.setArgument currentIndex.toNat
            { argument with
              value := { argument.value with
                         f32Value := safeStof stof next argument.defaultValue.f32Value }
              provided := true })
      | .BOOL =>
        match rest with
        | [] =>
          .advance1 (p.setArgument currentIndex.toNat
            { argument with
              value := { argument.value with boolValue := true }
              provided := true })
        | next :: _ =>
          if next = "true" ∨ next = "false" then
            .advance2 (p.setArgument currentIndex.toNat
              { argument with
                value := { argument.value with boolValue := decide (next = "true") }
                provided := true })
          else
            .advance1 p

/-- The token loop of `ArgParser::parse`, run on the tokens from the cursor on
(`argv[i ..]`); it ends when the cursor reaches `argc`, that is on `[]`. -/
def parseLoop (stoi : String → Option Int) (stof : String → Option f32) :
    ArgParser → List String → ArgParser × Result Unit
  | p, [] => (p, .returned ())
  | p, arg :: rest =>
    match parseIteration stoi stof p arg rest with
    | .thrown e => (p, .thrown e)
    | .undefinedBehaviour => (p, .undefinedBehaviour)
    | .advance1 q => parseLoop stoi stof q rest
    | .advance2 q =>
      match rest with
      | [] => (q, .returned ())
      | _ :: rest2 => parseLoop stoi stof q rest2

/-- The second loop of `ArgParser::parse`, over `requiredArgumentIndexes`. -/
def checkRequired (p : ArgParser) : List Nat → Result Unit
  | [] => .returned ()
  | index :: rest =>
    match p.arguments[index]? with
    | none => .undefinedBehaviour
    | some argument =>
      if !argument.provided then .thrown (.requiredNotProvided argument.triggerKeys)
      else checkRequired p rest

/-- The method `ArgParser::parse(argc, argv)`, with `argv` the list of the `argc` tokens. -/
def ArgParser.parse (stoi : String → Option Int) (stof : String → Option f32)
    (p : ArgParser) (argv : List String) : ArgParser × Result Unit :=
  let p := p.reset
  match parseLoop stoi stof p (argv.drop 1) with
  | (p, .returned ()) =>
    match checkRequired p p.requiredArgumentIndexes with
    | .returned () => ({ p with m_isParsed := true }, .returned ())
    | r => (p, r)
  | r => r

/-- The inline method `ArgParser::isParsed`. -/
def ArgParser.isParsed (p : ArgParser) : Bool := p.m_isParsed

/-! ## getArgument -/

/-- The macro `NTT_ARGUMENT_GET_VALUE_DEF`; `getStatement` reads the member to return. -/
def NTT_ARGUMENT_GET_VALUE_DEF {α : Type} (typeName : String) (argParserType : ArgParserType)
    (getStatement : ArgumentData → α) (p : ArgParser) (key : String) : ArgParser × Result α :=
  let index := p.searchByKey key
  if index = NTT_ARGUMENT_INVALID_INDEX then
    (p, .thrown (.keyNotFound key))
  else
    match p.arguments[index.toNat]? with
    | none => (p, .undefinedBehaviour)
    | some argument =>
      if argument.type ≠ argParserType then
        (p, .thrown (.keyIsNotA typeName argument.triggerKeys))
      else
        (p, .returned (getStatement argument))

/-- The specialisation `getArgument<String>`. -/
def ArgParser.getArgumentString (p : ArgParser) (key : String) : ArgParser × Result String :=
  NTT_ARGUMENT_GET_VALUE_DEF "String" .STRING (fun argument => argument.stringValue) p key

/-- The specialisation `getArgument<i32>`. -/
def ArgParser.getArgumentI32 (p : ArgParser) (key : String) : ArgParser × Result Int :=
  NTT_ARGUMENT_GET_VALUE_DEF "i32" .I32 (fun argument => argument.value.i32Value) p key

/-- The specialisation `getArgument<f32>`. -/
def ArgParser.getArgumentF32 (p : ArgParser) (key : String) : ArgParser × Result f32 :=
  NTT_ARGUMENT_GET_VALUE_DEF "f32" .F32 (fun argument => argument.value.f32Value) p key

/-- The specialisation `getArgument<bool>`. -/
def ArgParser.getArgumentBool (p : ArgParser) (key : String) : ArgParser × Result Bool :=
  NTT_ARGUMENT_GET_VALUE_DEF "bool" .BOOL (fun argument => argument.value.boolValue) p key

/-! ## Specification vocabulary -/

/-- The declared, immutable part of a record. -/
structure ArgumentDecl where
  triggerKeys : List String
  description : String
  type : ArgParserType
  isRequired : Bool
  defaultStringValue : String
  defaultValue : ArgumentValue
deriving DecidableEq, Repr

/-- The declared part of a record: the fields no operation writes after `addArgument`. -/
def ArgumentData.decl (a : ArgumentData) : ArgumentDecl :=
  { triggerKeys := a.triggerKeys, description := a.description, type := a.type,
    isRequired := a.isRequired, defaultStringValue := a.defaultStringValue,
    defaultValue := a.defaultValue }

/-- The declarations of a parser, in order. -/
def ArgParser.decls (p : ArgParser) : List ArgumentDecl := p.arguments.map ArgumentData.decl

/-- Record `a` at index `n` is the first record that has `key` among its trigger keys. -/
def FirstMatch (args : List ArgumentData) (key : String) (n : Nat) (a : ArgumentData) : Prop :=
  args[n]? = some a ∧ key ∈ a.triggerKeys ∧
    ∀ m b, m < n → args[m]? = some b → key ∉ b.triggerKeys

/-- The parts of the parser that only the constructor and `addArgument` write. -/
def SameDeclarations (p q : ArgParser) : Prop :=
  q.decls = p.decls ∧ q.requiredArgumentIndexes = p.requiredArgumentIndexes ∧
    q.description = p.description

/-- The required-index list agrees with the `isRequired` flags of the records. -/
def ArgParser.Consistent (p : ArgParser) : Prop :=
  ∀ i, i ∈ p.requiredArgumentIndexes ↔ ∃ a, p.arguments[i]? = some a ∧ a.isRequired = true

/-- The parser states the public operations can produce. -/
inductive Reachable (stoi : String → Option Int) (stof : String → Option f32) :
    ArgParser → Prop where
  | create (description : String) : Reachable stoi stof (ArgParser.create description)
  | declare (p : ArgParser) (d : Declaration) :
    Reachable stoi stof p → Reachable stoi stof (p.declare d)
  | parse (p : ArgParser) (argv : List String) :
    Reachable stoi stof p → Reachable stoi stof (p.parse stoi stof argv).1
  | reset (p : ArgParser) : Reachable stoi stof p → Reachable stoi stof p.reset

/-- The run of the token loop as the list of its cursor positions: each entry is the state
at the head of an iteration (or at the exit test) with the tokens `argv[i ..]` ahead of the
cursor.  It follows the recursion of `parseLoop` and stops where the loop throws. -/
def cursorTrace (stoi : String → Option Int) (stof : String → Option f32) :
    ArgParser → List String → List (ArgParser × List String)
  | p, [] => [(p, [])]
  | p, arg :: rest =>
    (p, arg :: rest) ::
      match parseIteration stoi stof p arg rest with
      | .thrown _ => []
      | .undefinedBehaviour => []
      | .advance1 q => cursorTrace stoi stof q rest
      | .advance2 q =>
        match rest with
        | [] => [(q, [])]
        | _ :: rest2 => cursorTrace stoi stof q rest2

/-- The token loop, started in state `p` with the tokens `ts` ahead of the cursor, arrives
at the head of an iteration (or at its exit test) in state `q` with the tokens `us` ahead:
when `us = key :: rest`, the token `key` is examined as a key in state `q`. -/
def CursorReaches (stoi : String → Option Int) (stof : String → Option f32)
    (p : ArgParser) (ts : List String) (q : ArgParser) (us : List String) : Prop :=
  (q, us) ∈ cursorTrace stoi stof p ts

instance (stoi : String → Option Int) (stof : String → Option f32)
    (p : ArgParser) (ts : List String) (q : ArgParser) (us : List String) :
    Decidable (CursorReaches stoi stof p ts q us) :=
  inferInstanceAs (Decidable ((q, us) ∈ cursorTrace stoi stof p ts))

/-- A value together with its kind. -/
inductive TypedValue where
  | string (v : String)
  | i32 (v : Int)
  | f32 (v : f32)
  | bool (v : Bool)
deriving DecidableEq, Repr

/-- The current value of a record: the member its `type` selects (what `getArgument`
of the declared type returns). -/
def ArgumentData.currentValue (a : ArgumentData) : TypedValue :=
  match a.type with
  | .STRING => .string a.stringValue
  | .I32 => .i32 a.value.i32Value
  | .F32 => .f32 a.value.f32Value
  | .BOOL => .bool a.value.boolValue

/-- The declared default of a record: the member of the stored default its `type` selects
(what `reset` copies back). -/
def ArgumentData.declaredDefault (a : ArgumentData) : TypedValue :=
  match a.type with
  | .STRING => .string a.defaultStringValue
  | .I32 => .i32 a.defaultValue.i32Value
  | .F32 => .f32 a.defaultValue.f32Value
  | .BOOL => .bool a.defaultValue.boolValue

/-- The tokens `k1, v1, ..., kn, vn` of a list of key/value pairs. -/
def pairTokens : List (String × String) → List String
  | [] => []
  | kv :: rest => kv.1 :: kv.2 :: pairTokens rest

/-- The default given in a declaration, with its kind. -/
def Declaration.typedDefault : Declaration → TypedValue
  | .string _ _ _ defaultValue => .string defaultValue
  | .i32 _ _ _ defaultValue => .i32 defaultValue
  | .f32 _ _ _ defaultValue => .f32 defaultValue
  | .bool _ _ _ defaultValue => .bool defaultValue

/-- The declared part of the record that a declaration appends (the fields written by
`NTT_ARGUMENT_ADD_ARGUMENT_DEF` that no other operation writes). -/
def Declaration.decl : Declaration → ArgumentDecl
  | .string triggerKeys description isRequired defaultValue =>
    { triggerKeys := triggerKeys, description := description, type := .STRING,
      isRequired := isRequired, defaultStringValue := defaultValue,
      defaultValue := ArgumentValue.init }
  | .i32 triggerKeys description isRequired defaultValue =>
    { triggerKeys := triggerKeys, description := description, type := .I32,
      isRequired := isRequired, defaultStringValue := "",
      defaultValue := { ArgumentValue.init with i32Value := defaultValue } }
  | .f32 triggerKeys description isRequired defaultValue =>
    { triggerKeys := triggerKeys, description := description, type := .F32,
      isRequired := isRequired, defaultStringValue := "",
      defaultValue := { ArgumentValue.init with f32Value := defaultValue } }
  | .bool triggerKeys description isRequired defaultValue =>
    { triggerKeys := triggerKeys, description := description, type := .BOOL,
      isRequired := isRequired, defaultStringValue := "",
      defaultValue := { ArgumentValue.init with boolValue := defaultValue } }

/-- The parser states the public operations can produce, together with the declarations
made so far, in order. -/
inductive DeclaredBy (stoi : String → Option Int) (stof : String → Option f32) :
    List Declaration → ArgParser → Prop where
  | create (description : String) : DeclaredBy stoi stof [] (ArgParser.create description)
  | declare (ds : List Declaration) (p : ArgParser) (d : Declaration) :
    DeclaredBy stoi stof ds p → DeclaredBy stoi stof (ds ++ [d]) (p.declare d)
  | parse (ds : List Declaration) (p : ArgParser) (argv : List String) :
    DeclaredBy stoi stof ds p → DeclaredBy stoi stof ds (p.parse stoi stof argv).1
  | reset (ds : List Declaration) (p : ArgParser) :
    DeclaredBy stoi stof ds p → DeclaredBy stoi stof ds p.reset

/-! ## Concrete instances -/

/-- A model of `std::stoi` in base 10, used to run the embedding on concrete tokens:
leading white space is skipped, an optional sign and the longest run of decimal digits are
read and whatever follows is ignored; `none` when there is no digit
(`std::invalid_argument`) or when the value does not fit an `int` (`std::out_of_range`). -/
def stdStoi (s : String) : Option Int :=
  let cs := s.toList.dropWhile (fun c => c.toNat = 32 ∨ (9 ≤ c.toNat ∧ c.toNat ≤ 13))
  let signed : Bool × List Char :=
    match cs with
    | '-' :: r => (true, r)
    | '+' :: r => (false, r)
    | r => (false, r)
  let ds := signed.2.takeWhile (fun c => 48 ≤ c.toNat ∧ c.toNat ≤ 57)
  if ds = [] then none
  else
    let n : Int := ((ds.foldl (fun acc c => acc * 10 + (c.toNat - 48)) 0 : Nat) : Int)
    let v : Int := if signed.1 then -n else n
    if -2147483648 ≤ v ∧ v ≤ 2147483647 then some v else none

/-- The function `std::stof` on the value tokens used below, as a table: the bit patterns of
`9.5f`, `1.0f` and `2.12f` for the three numerals of the test suite, and `none` (the
conversion throws) for the other tokens used, none of which starts a number. -/
def stofTable (s : String) : Option f32 :=
  if s = "9.5" then some { bits := 0x41180000 }
  else if s = "1.0" then some { bits := 0x3F800000 }
  else if s = "2.12" then some { bits := 0x4007AE14 }
  else none

/-- The declarations of the test suite (`ArgParserTest::DefineArgument`); the default
`1.0f` of `-r` is the bit pattern `0x3F800000`. -/
def testDeclarations : List Declaration :=
  [.string ["-v", "--version"] "Show the version of the program" false "1.0.0",
   .i32 ["-c", "--col"] "Show the color of the program" false 0,
   .f32 ["-r", "--radius"] "Show the radius of the program" true { bits := 0x3F800000 },
   .bool ["--use-color"] "Show the color of the program" false false]

/-- The parser of the test suite after `DefineArgument`. -/
def testParser : ArgParser :=
  ArgParser.declared "This is the description of the parser" testDeclarations

/-- The tokens of the fixture `test1` of the test suite. -/
def test1Argv : List String :=
  ["program", "-v", "1.0.0", "--col", "8", "-r", "9.5", "--use-color"]

/-! ## Lookup and frame lemmas -/

theorem any_beq_iff (keys : List String) (key : String) :
    keys.any (fun triggerKey => triggerKey == key) = true ↔ key ∈ keys := by
  simp [List.any_eq_true]

theorem searchByKeyFrom_invalid_iff (key : String) (args : List ArgumentData) (i : Nat) :
    searchByKeyFrom key args i = NTT_ARGUMENT_INVALID_INDEX ↔
      ∀ a ∈ args, key ∉ a.triggerKeys := by
  induction args generalizing i with
  | nil => simp [searchByKeyFrom]
  | cons a rest ih =>
    unfold searchByKeyFrom
    by_cases h : key ∈ a.triggerKeys
    · have h2 := (any_beq_iff a.triggerKeys key).2 h
      simp only [h2, if_true]
      constructor
      · intro hc
        simp [NTT_ARGUMENT_INVALID_INDEX] at hc
      · intro hc
        exact absurd h (hc a (List.mem_cons_self _ _))
    · have h2 : a.triggerKeys.any (fun triggerKey => triggerKey == key) = false := by
        rw [Bool.eq_false_iff]; intro hc; exact h ((any_beq_iff _ _).1 hc)
      simp only [h2, Bool.false_eq_true, if_false, ih, List.mem_cons, forall_eq_or_imp]
      simp [h]

theorem searchByKeyFrom_of_firstMatch (key : String) (args : List ArgumentData) (i n : Nat)
    (a : ArgumentData) (h : FirstMatch args key n a) :
    searchByKeyFrom key args i = ((i + n : Nat) : Int) := by
  induction args generalizing i n with
  | nil => simp [FirstMatch] at h
  | cons b rest ih =>
    obtain ⟨h1, h2, h3⟩ := h
    unfold searchByKeyFrom
    cases n with
    | zero =>
      simp at h1
      subst h1
      simp [(any_beq_iff _ key).2 h2]
    | succ n =>
      have hb : key ∉ b.triggerKeys := h3 0 b (Nat.succ_pos n) (by simp)
      have h2b : b.triggerKeys.any (fun triggerKey => triggerKey == key) = false := by
        rw [Bool.eq_false_iff]; intro hc; exact hb ((any_beq_iff _ _).1 hc)
      simp only [h2b, Bool.false_eq_true, if_false]
      have := ih (i + 1) n ⟨by simpa using h1, h2, fun m c hm hc => h3 (m + 1) c (by omega) (by simpa using hc)⟩
      rw [this]
      congr 1
      omega

theorem searchByKeyFrom_cases (key : String) (args : List ArgumentData) (i : Nat) :
    searchByKeyFrom key args i = NTT_ARGUMENT_INVALID_INDEX ∨
      ∃ n a, FirstMatch args key n a ∧ searchByKeyFrom key args i = ((i + n : Nat) : Int) := by
  induction args generalizing i with
  | nil => left; rfl
  | cons b rest ih =>
    by_cases h : key ∈ b.triggerKeys
    · right
      refine ⟨0, b, ⟨by simp, h, fun m c hm => absurd hm (Nat.not_lt_zero m)⟩, ?_⟩
      unfold searchByKeyFrom
      simp [(any_beq_iff _ key).2 h]
    · have h2b : b.triggerKeys.any (fun triggerKey => triggerKey == key) = false := by
        rw [Bool.eq_false_iff]; intro hc; exact h ((any_beq_iff _ _).1 hc)
      rcases ih (i + 1) with h1 | ⟨n, a, hf, h1⟩
      · left
        unfold searchByKeyFrom
        simp only [h2b, Bool.false_eq_true, if_false, h1]
      · right
        refine ⟨n + 1, a, ⟨by simpa using hf.1, hf.2.1, ?_⟩, ?_⟩
        · intro m c hm hc
          cases m with
          | zero => simp at hc; subst hc; exact h
          | succ m => exact hf.2.2 m c (by omega) (by simpa using hc)
        · unfold searchByKeyFrom
          simp only [h2b, Bool.false_eq_true, if_false, h1]
          congr 1
          omega

theorem searchByKey_of_firstMatch (p : ArgParser) (key : String) (n : Nat) (a : ArgumentData)
    (h : FirstMatch p.arguments key n a) : p.searchByKey key = (n : Int) := by
  have := searchByKeyFrom_of_firstMatch key p.arguments 0 n a h
  simpa [ArgParser.searchByKey] using this

theorem searchByKey_cases (p : ArgParser) (key : String) :
    p.searchByKey key = NTT_ARGUMENT_INVALID_INDEX ∨
      ∃ n a, FirstMatch p.arguments key n a ∧ p.searchByKey key = (n : Int) := by
  rcases searchByKeyFrom_cases key p.arguments 0 with h | ⟨n, a, hf, h⟩
  · exact Or.inl h
  · exact Or.inr ⟨n, a, hf, by simpa [ArgParser.searchByKey] using h⟩

theorem searchByKey_invalid_iff (p : ArgParser) (key : String) :
    p.searchByKey key = NTT_ARGUMENT_INVALID_INDEX ↔ ∀ a ∈ p.arguments, key ∉ a.triggerKeys :=
  searchByKeyFrom_invalid_iff key p.arguments 0

theorem nat_ne_invalid (n : Nat) : (n : Int) ≠ NTT_ARGUMENT_INVALID_INDEX := by
  simp [NTT_ARGUMENT_INVALID_INDEX]

theorem firstMatch_of_searchByKey (p : ArgParser) (key : String) (n : Nat)
    (h : p.searchByKey key = (n : Int)) : ∃ a, FirstMatch p.arguments key n a := by
  rcases searchByKey_cases p key with h1 | ⟨m, a, hf, h1⟩
  · rw [h] at h1
    exact absurd h1 (nat_ne_invalid n)
  · rw [h] at h1
    have : n = m := by exact_mod_cast h1
    subst this
    exact ⟨a, hf⟩

theorem searchByKeyFrom_congr (key : String) (args args2 : List ArgumentData) (i : Nat)
    (h : args.map ArgumentData.decl = args2.map ArgumentData.decl) :
    searchByKeyFrom key args i = searchByKeyFrom key args2 i := by
  induction args generalizing args2 i with
  | nil =>
    cases args2 with
    | nil => rfl
    | cons b rest2 => simp at h
  | cons a rest ih =>
    cases args2 with
    | nil => simp at h
    | cons b rest2 =>
      simp only [List.map_cons, List.cons.injEq] at h
      have hk : a.triggerKeys = b.triggerKeys := congrArg ArgumentDecl.triggerKeys h.1
      unfold searchByKeyFrom
      rw [hk, ih rest2 (i + 1) h.2]

theorem searchByKey_congr (p q : ArgParser) (key : String) (h : q.decls = p.decls) :
    q.searchByKey key = p.searchByKey key :=
  searchByKeyFrom_congr key q.arguments p.arguments 0 h

theorem SameDeclarations.refl (p : ArgParser) : SameDeclarations p p := ⟨rfl, rfl, rfl⟩

theorem SameDeclarations.trans {p q r : ArgParser} (h1 : SameDeclarations p q)
    (h2 : SameDeclarations q r) : SameDeclarations p r :=
  ⟨h2.1.trans h1.1, h2.2.1.trans h1.2.1, h2.2.2.trans h1.2.2⟩

theorem decls_setArgument (p : ArgParser) (n : Nat) (a b : ArgumentData)
    (ha : p.arguments[n]? = some a) (hb : b.decl = a.decl) :
    (p.setArgument n b).decls = p.decls := by
  apply List.ext_getElem?
  intro i
  simp only [ArgParser.decls, ArgParser.setArgument, List.getElem?_map, List.getElem?_set]
  by_cases hi : n = i
  · subst hi
    have hn : n < p.arguments.length := by
      rcases Nat.lt_or_ge n p.arguments.length with h | h
      · exact h
      · rw [List.getElem?_eq_none h] at ha
        cases ha
    simp [ha, hb, hn]
  · simp [hi]

theorem sameDeclarations_setArgument (p : ArgParser) (n : Nat) (a b : ArgumentData)
    (ha : p.arguments[n]? = some a) (hb : b.decl = a.decl) :
    SameDeclarations p (p.setArgument n b) :=
  ⟨decls_setArgument p n a b ha hb, rfl, rfl⟩

theorem decl_resetArgument (a : ArgumentData) : (resetArgument a).decl = a.decl := by
  rcases a with ⟨_, _, _, _, ty, _, _, _, _⟩
  cases ty <;> rfl

theorem provided_resetArgument (a : ArgumentData) : (resetArgument a).provided = a.provided := by
  rcases a with ⟨_, _, _, _, ty, _, _, _, _⟩
  cases ty <;> rfl

theorem sameDeclarations_reset (p : ArgParser) : SameDeclarations p p.reset := by
  refine ⟨?_, rfl, rfl⟩
  simp [ArgParser.decls, ArgParser.reset, List.map_map, Function.comp_def, decl_resetArgument]

theorem isParsed_reset (p : ArgParser) : p.reset.m_isParsed = p.m_isParsed := rfl

theorem getElem?_reset (p : ArgParser) (i : Nat) :
    p.reset.arguments[i]? = (p.arguments[i]?).map resetArgument := by
  simp [ArgParser.reset, List.getElem?_map]

/-- The iteration at a token that resolves to record `n`. -/
theorem parseIteration_found (stoi : String → Option Int) (stof : String → Option f32)
    (p : ArgParser) (arg : String) (rest : List String) (n : Nat) (a : ArgumentData)
    (h : FirstMatch p.arguments arg n a) :
    parseIteration stoi stof p arg rest =
      match a.type with
      | .STRING =>
        match rest with
        | [] => .thrown (.notFollowedByValue .STRING a.triggerKeys)
        | next :: _ =>
          .advance2 (p.setArgument n { a with stringValue := next, provided := true })
      | .I32 =>
        match rest with
        | [] => .thrown (.notFollowedByValue .I32 a.triggerKeys)
        | next :: _ =>
          .advance2 (p.setArgument n
            { a with
              value := { a.value with i32Value := safeStoi stoi next a.defaultValue.i32Value }
              provided := true })
      | .F32 =>
        match rest with
        | [] => .thrown (.notFollowedByValue .F32 a.triggerKeys)
        | next :: _ =>
          .advance2 (p.setArgument n
            { a with
              value := { a.value with f32Value := safeStof stof next a.defaultValue.f32Value }
              provided := true })
      | .BOOL =>
        match rest with
        | [] =>
          .advance1 (p.setArgument n
            { a with value := { a.value with boolValue := true }, provided := true })
        | next :: _ =>
          if next = "true" ∨ next = "false" then
            .advance2 (p.setArgument n
              { a with
                value := { a.value with boolValue := decide (next = "true") }
                provided := true })
          else
            .advance1 p := by
  have hs := searchByKey_of_firstMatch p arg n a h
  unfold parseIteration
  simp only [hs, nat_ne_invalid, if_false, Int.toNat_ofNat, h.1]

theorem parseIteration_notFound (stoi : String → Option Int) (stof : String → Option f32)
    (p : ArgParser) (arg : String) (rest : List String)
    (h : p.searchByKey arg = NTT_ARGUMENT_INVALID_INDEX) :
    parseIteration stoi stof p arg rest = .thrown (.keyNotFound arg) := by
  unfold parseIteration
  simp [h]

/-! ## The token loop -/

theorem parseLoop_nil (stoi : String → Option Int) (stof : String → Option f32)
    (p : ArgParser) : parseLoop stoi stof p [] = (p, .returned ()) := by
  simp [parseLoop]

theorem parseLoop_thrown (stoi : String → Option Int) (stof : String → Option f32)
    (p : ArgParser) (arg : String) (rest : List String) (e : InvalidArgument)
    (h : parseIteration stoi stof p arg rest = .thrown e) :
    parseLoop stoi stof p (arg :: rest) = (p, .thrown e) := by
  simp [parseLoop, h]

theorem parseLoop_advance1 (stoi : String → Option Int) (stof : String → Option f32)
    (p q : ArgParser) (arg : String) (rest : List String)
    (h : parseIteration stoi stof p arg rest = .advance1 q) :
    parseLoop stoi stof p (arg :: rest) = parseLoop stoi stof q rest := by
  simp [parseLoop, h]

theorem parseLoop_advance2 (stoi : String → Option Int) (stof : String → Option f32)
    (p q : ArgParser) (arg : String) (rest : List String)
    (h : parseIteration stoi stof p arg rest = .advance2 q) :
    parseLoop stoi stof p (arg :: rest) = parseLoop stoi stof q (rest.drop 1) := by
  cases rest with
  | nil => simp [parseLoop, h]
  | cons next rest2 => simp [parseLoop, h]

theorem parseIteration_missing (stoi : String → Option Int) (stof : String → Option f32)
    (p : ArgParser) (arg : String) (n : Nat) (a : ArgumentData)
    (h : FirstMatch p.arguments arg n a) (hty : a.type ≠ .BOOL) :
    parseIteration stoi stof p arg [] = .thrown (.notFollowedByValue a.type a.triggerKeys) := by
  rw [parseIteration_found stoi stof p arg [] n a h]
  cases hk : a.type <;> simp_all

theorem parseIteration_string (stoi : String → Option Int) (stof : String → Option f32)
    (p : ArgParser) (arg next : String) (rest : List String) (n : Nat) (a : ArgumentData)
    (h : FirstMatch p.arguments arg n a) (hty : a.type = .STRING) :
    parseIteration stoi stof p arg (next :: rest) =
      .advance2 (p.setArgument n { a with stringValue := next, provided := true }) := by
  rw [parseIteration_found stoi stof p arg (next :: rest) n a h]
  simp only [hty]

theorem parseIteration_i32 (stoi : String → Option Int) (stof : String → Option f32)
    (p : ArgParser) (arg next : String) (rest : List String) (n : Nat) (a : ArgumentData)
    (h : FirstMatch p.arguments arg n a) (hty : a.type = .I32) :
    parseIteration stoi stof p arg (next :: rest) =
      .advance2 (p.setArgument n
        { a with
          value := { a.value with i32Value := safeStoi stoi next a.defaultValue.i32Value }
          provided := true }) := by
  rw [parseIteration_found stoi stof p arg (next :: rest) n a h]
  simp only [hty]

theorem parseIteration_f32 (stoi : String → Option Int) (stof : String → Option f32)
    (p : ArgParser) (arg next : String) (rest : List String) (n : Nat) (a : ArgumentData)
    (h : FirstMatch p.arguments arg n a) (hty : a.type = .F32) :
    parseIteration stoi stof p arg (next :: rest) =
      .advance2 (p.setArgument n
        { a with
          value := { a.value with f32Value := safeStof stof next a.defaultValue.f32Value }
          provided := true }) := by
  rw [parseIteration_found stoi stof p arg (next :: rest) n a h]
  simp only [hty]

theorem parseIteration_bool_last (stoi : String → Option Int) (stof : String → Option f32)
    (p : ArgParser) (arg : String) (n : Nat) (a : ArgumentData)
    (h : FirstMatch p.arguments arg n a) (hty : a.type = .BOOL) :
    parseIteration stoi stof p arg [] =
      .advance1 (p.setArgument n
        { a with value := { a.value with boolValue := true }, provided := true }) := by
  rw [parseIteration_found stoi stof p arg [] n a h]
  simp only [hty]

theorem parseIteration_bool_literal (stoi : String → Option Int) (stof : String → Option f32)
    (p : ArgParser) (arg next : String) (rest : List String) (n : Nat) (a : ArgumentData)
    (h : FirstMatch p.arguments arg n a) (hty : a.type = .BOOL)
    (hlit : next = "true" ∨ next = "false") :
    parseIteration stoi stof p arg (next :: rest) =
      .advance2 (p.setArgument n
        { a with
          value := { a.value with boolValue := decide (next = "true") }
          provided := true }) := by
  rw [parseIteration_found stoi stof p arg (next :: rest) n a h]
  simp only [hty, hlit, if_true]

theorem parseIteration_bool_other (stoi : String → Option Int) (stof : String → Option f32)
    (p : ArgParser) (arg next : String) (rest : List String) (n : Nat) (a : ArgumentData)
    (h : FirstMatch p.arguments arg n a) (hty : a.type = .BOOL)
    (hlit : ¬ (next = "true" ∨ next = "false")) :
    parseIteration stoi stof p arg (next :: rest) = .advance1 p := by
  rw [parseIteration_found stoi stof p arg (next :: rest) n a h]
  simp only [hty, hlit, if_false]

/-- What one iteration can do: throw, or advance with at most the resolved record
rewritten, its declared part kept. -/
theorem parseIteration_cases (stoi : String → Option Int) (stof : String → Option f32)
    (p : ArgParser) (arg : String) (rest : List String) :
    (∃ e, parseIteration stoi stof p arg rest = .thrown e) ∨
    (∃ q, (parseIteration stoi stof p arg rest = .advance1 q ∨
            parseIteration stoi stof p arg rest = .advance2 q) ∧
          (q = p ∨ ∃ n a b, FirstMatch p.arguments arg n a ∧ b.decl = a.decl ∧
            q = p.setArgument n b)) := by
  rcases searchByKey_cases p arg with h | ⟨n, a, hf, -⟩
  · exact Or.inl ⟨_, parseIteration_notFound stoi stof p arg rest h⟩
  · cases rest with
    | nil =>
      by_cases hty : a.type = .BOOL
      · exact Or.inr ⟨_, Or.inl (parseIteration_bool_last stoi stof p arg n a hf hty),
          Or.inr ⟨n, a, _, hf, by rfl, rfl⟩⟩
      · exact Or.inl ⟨_, parseIteration_missing stoi stof p arg n a hf hty⟩
    | cons next rest2 =>
      cases hty : a.type with
      | STRING =>
        exact Or.inr ⟨_, Or.inr (parseIteration_string stoi stof p arg next rest2 n a hf hty),
          Or.inr ⟨n, a, _, hf, by rfl, rfl⟩⟩
      | I32 =>
        exact Or.inr ⟨_, Or.inr (parseIteration_i32 stoi stof p arg next rest2 n a hf hty),
          Or.inr ⟨n, a, _, hf, by rfl, rfl⟩⟩
      | F32 =>
        exact Or.inr ⟨_, Or.inr (parseIteration_f32 stoi stof p arg next rest2 n a hf hty),
          Or.inr ⟨n, a, _, hf, by rfl, rfl⟩⟩
      | BOOL =>
        by_cases hlit : next = "true" ∨ next = "false"
        · exact Or.inr ⟨_, Or.inr
            (parseIteration_bool_literal stoi stof p arg next rest2 n a hf hty hlit),
            Or.inr ⟨n, a, _, hf, by rfl, rfl⟩⟩
        · exact Or.inr ⟨_, Or.inl
            (parseIteration_bool_other stoi stof p arg next rest2 n a hf hty hlit),
            Or.inl rfl⟩

/-- Induction along the run of the token loop. -/
theorem parseLoop_induct (stoi : String → Option Int) (stof : String → Option f32)
    (motive : ArgParser → List String → Prop)
    (nil : ∀ p, motive p [])
    (thrown : ∀ p arg rest e,
      parseIteration stoi stof p arg rest = .thrown e → motive p (arg :: rest))
    (adv1 : ∀ p q arg rest,
      parseIteration stoi stof p arg rest = .advance1 q → motive q rest → motive p (arg :: rest))
    (adv2 : ∀ p q arg rest,
      parseIteration stoi stof p arg rest = .advance2 q → motive q (rest.drop 1) →
        motive p (arg :: rest)) :
    ∀ p ts, motive p ts := by
  have key : ∀ n (ts : List String), ts.length ≤ n → ∀ p, motive p ts := by
    intro n
    induction n with
    | zero =>
      intro ts hts p
      have : ts = [] := List.length_eq_zero.1 (Nat.le_zero.1 hts)
      subst this
      exact nil p
    | succ n ih =>
      intro ts hts p
      cases ts with
      | nil => exact nil p
      | cons arg rest =>
        have hrest : rest.length ≤ n := by simpa using hts
        rcases parseIteration_cases stoi stof p arg rest with ⟨e, he⟩ | ⟨q, hq | hq, -⟩
        · exact thrown p arg rest e he
        · exact adv1 p q arg rest hq (ih rest hrest q)
        · refine adv2 p q arg rest hq (ih (rest.drop 1) ?_ q)
          simp only [List.length_drop]
          omega
  intro p ts
  exact key ts.length ts (Nat.le_refl _) p

/-- The token loop throws or returns; it never indexes out of range. -/
theorem parseLoop_result (stoi : String → Option Int) (stof : String → Option f32)
    (p : ArgParser) (ts : List String) :
    (parseLoop stoi stof p ts).2 = .returned () ∨
      ∃ e, (parseLoop stoi stof p ts).2 = .thrown e := by
  refine parseLoop_induct stoi stof
    (fun p ts => (parseLoop stoi stof p ts).2 = .returned () ∨
      ∃ e, (parseLoop stoi stof p ts).2 = .thrown e) ?_ ?_ ?_ ?_ p ts
  · intro p
    exact Or.inl (by rw [parseLoop_nil])
  · intro p arg rest e he
    exact Or.inr ⟨e, by rw [parseLoop_thrown stoi stof p arg rest e he]⟩
  · intro p q arg rest hq ih
    rw [parseLoop_advance1 stoi stof p q arg rest hq]
    exact ih
  · intro p q arg rest hq ih
    rw [parseLoop_advance2 stoi stof p q arg rest hq]
    exact ih

theorem parseIteration_frame (stoi : String → Option Int) (stof : String → Option f32)
    (p q : ArgParser) (arg : String) (rest : List String)
    (h : parseIteration stoi stof p arg rest = .advance1 q ∨
      parseIteration stoi stof p arg rest = .advance2 q) :
    SameDeclarations p q ∧ q.m_isParsed = p.m_isParsed := by
  rcases parseIteration_cases stoi stof p arg rest with ⟨e, he⟩ | ⟨q2, hq2, hcase⟩
  · rcases h with h | h <;> rw [he] at h <;> cases h
  · have hq : q2 = q := by
      rcases h with h | h <;> rcases hq2 with h2 | h2 <;> rw [h2] at h <;> cases h <;> rfl
    subst hq
    rcases hcase with rfl | ⟨n, a, b, hf, hb, rfl⟩
    · exact ⟨SameDeclarations.refl _, rfl⟩
    · exact ⟨sameDeclarations_setArgument p n a b hf.1 hb, rfl⟩

/-- The token loop keeps the declarations and the parsed flag. -/
theorem parseLoop_frame (stoi : String → Option Int) (stof : String → Option f32)
    (p : ArgParser) (ts : List String) :
    SameDeclarations p (parseLoop stoi stof p ts).1 ∧
      (parseLoop stoi stof p ts).1.m_isParsed = p.m_isParsed := by
  refine parseLoop_induct stoi stof
    (fun p ts => SameDeclarations p (parseLoop stoi stof p ts).1 ∧
      (parseLoop stoi stof p ts).1.m_isParsed = p.m_isParsed) ?_ ?_ ?_ ?_ p ts
  · intro p
    rw [parseLoop_nil]
    exact ⟨SameDeclarations.refl _, rfl⟩
  · intro p arg rest e he
    rw [parseLoop_thrown stoi stof p arg rest e he]
    exact ⟨SameDeclarations.refl _, rfl⟩
  · intro p q arg rest hq ih
    rw [parseLoop_advance1 stoi stof p q arg rest hq]
    have hf := parseIteration_frame stoi stof p q arg rest (Or.inl hq)
    exact ⟨hf.1.trans ih.1, ih.2.trans hf.2⟩
  · intro p q arg rest hq ih
    rw [parseLoop_advance2 stoi stof p q arg rest hq]
    have hf := parseIteration_frame stoi stof p q arg rest (Or.inr hq)
    exact ⟨hf.1.trans ih.1, ih.2.trans hf.2⟩

theorem getElem?_setArgument_ne (p : ArgParser) (n r : Nat) (b : ArgumentData) (h : n ≠ r) :
    (p.setArgument n b).arguments[r]? = p.arguments[r]? := by
  simp [ArgParser.setArgument, List.getElem?_set, h]

theorem getElem?_setArgument_eq (p : ArgParser) (n : Nat) (a b : ArgumentData)
    (h : p.arguments[n]? = some a) : (p.setArgument n b).arguments[n]? = some b := by
  have hn : n < p.arguments.length := by
    rcases Nat.lt_or_ge n p.arguments.length with h1 | h1
    · exact h1
    · rw [List.getElem?_eq_none h1] at h
      cases h
  simp [ArgParser.setArgument, List.getElem?_set, hn]

/-- An iteration at a token that is not a trigger key of record `r` leaves record `r`
as it is. -/
theorem parseIteration_untouched (stoi : String → Option Int) (stof : String → Option f32)
    (p q : ArgParser) (arg : String) (rest : List String) (r : Nat) (a : ArgumentData)
    (h : parseIteration stoi stof p arg rest = .advance1 q ∨
      parseIteration stoi stof p arg rest = .advance2 q)
    (ha : p.arguments[r]? = some a) (harg : arg ∉ a.triggerKeys) :
    q.arguments[r]? = some a := by
  rcases parseIteration_cases stoi stof p arg rest with ⟨e, he⟩ | ⟨q2, hq2, hcase⟩
  · rcases h with h | h <;> rw [he] at h <;> cases h
  · have hq : q2 = q := by
      rcases h with h | h <;> rcases hq2 with h2 | h2 <;> rw [h2] at h <;> cases h <;> rfl
    subst hq
    rcases hcase with rfl | ⟨n, a2, b, hf, -, rfl⟩
    · exact ha
    · by_cases hn : n = r
      · subst hn
        rw [hf.1] at ha
        cases ha
        exact absurd hf.2.1 harg
      · rw [getElem?_setArgument_ne p n r b hn]
        exact ha

/-- The token loop leaves a record as it is when none of its trigger keys is among the
tokens. -/
theorem parseLoop_untouched (stoi : String → Option Int) (stof : String → Option f32)
    (r : Nat) (a : ArgumentData) (p : ArgParser) (ts : List String) :
    p.arguments[r]? = some a → (∀ k ∈ a.triggerKeys, k ∉ ts) →
      (parseLoop stoi stof p ts).1.arguments[r]? = some a := by
  refine parseLoop_induct stoi stof
    (fun p ts => p.arguments[r]? = some a → (∀ k ∈ a.triggerKeys, k ∉ ts) →
      (parseLoop stoi stof p ts).1.arguments[r]? = some a) ?_ ?_ ?_ ?_ p ts
  · intro p ha _
    rw [parseLoop_nil]
    exact ha
  · intro p arg rest e he ha _
    rw [parseLoop_thrown stoi stof p arg rest e he]
    exact ha
  · intro p q arg rest hq ih ha habs
    rw [parseLoop_advance1 stoi stof p q arg rest hq]
    have harg : arg ∉ a.triggerKeys := fun hc => habs arg hc (List.mem_cons_self _ _)
    refine ih (parseIteration_untouched stoi stof p q arg rest r a (Or.inl hq) ha harg) ?_
    intro k hk hc
    exact habs k hk (List.mem_cons_of_mem _ hc)
  · intro p q arg rest hq ih ha habs
    rw [parseLoop_advance2 stoi stof p q arg rest hq]
    have harg : arg ∉ a.triggerKeys := fun hc => habs arg hc (List.mem_cons_self _ _)
    refine ih (parseIteration_untouched stoi stof p q arg rest r a (Or.inr hq) ha harg) ?_
    intro k hk hc
    exact habs k hk (List.mem_cons_of_mem _ (List.mem_of_mem_drop hc))

/-! ## The required check and `parse` -/

/-- The required check throws the missing-required error, returns, or (on an index out
of range) is undefined. -/
theorem checkRequired_returned_iff (p : ArgParser) (l : List Nat) :
    checkRequired p l = .returned () ↔
      ∀ i ∈ l, ∃ a, p.arguments[i]? = some a ∧ a.provided = true := by
  induction l with
  | nil => simp [checkRequired]
  | cons index rest ih =>
    unfold checkRequired
    cases h : p.arguments[index]? with
    | none => simp [h]
    | some a =>
      cases hp : a.provided <;> simp [h, hp, ih]

theorem checkRequired_thrown (p : ArgParser) (l : List Nat)
    (hin : ∀ i ∈ l, ∃ a, p.arguments[i]? = some a)
    (hmiss : ∃ i ∈ l, ∃ a, p.arguments[i]? = some a ∧ a.provided = false) :
    ∃ keys, checkRequired p l = .thrown (.requiredNotProvided keys) := by
  induction l with
  | nil =>
    rcases hmiss with ⟨i, hi, -⟩
    cases hi
  | cons index rest ih =>
    unfold checkRequired
    rcases hin index (List.mem_cons_self _ _) with ⟨a, ha⟩
    cases hp : a.provided with
    | false => exact ⟨a.triggerKeys, by simp [ha, hp]⟩
    | true =>
      simp only [ha, hp, Bool.not_true, Bool.false_eq_true, if_false]
      apply ih
      · intro i hi
        exact hin i (List.mem_cons_of_mem _ hi)
      · rcases hmiss with ⟨i, hi, b, hb, hbp⟩
        rcases List.mem_cons.1 hi with rfl | hi2
        · rw [ha] at hb
          cases hb
          rw [hp] at hbp
          cases hbp
        · exact ⟨i, hi2, b, hb, hbp⟩

theorem parse_of_loop_thrown (stoi : String → Option Int) (stof : String → Option f32)
    (p q : ArgParser) (argv : List String) (e : InvalidArgument)
    (h : parseLoop stoi stof p.reset (argv.drop 1) = (q, .thrown e)) :
    p.parse stoi stof argv = (q, .thrown e) := by
  unfold ArgParser.parse
  simp only [h]

theorem parse_of_loop_returned (stoi : String → Option Int) (stof : String → Option f32)
    (p q : ArgParser) (argv : List String)
    (h : parseLoop stoi stof p.reset (argv.drop 1) = (q, .returned ())) :
    p.parse stoi stof argv =
      match checkRequired q q.requiredArgumentIndexes with
      | .returned () => ({ q with m_isParsed := true }, .returned ())
      | r => (q, r) := by
  unfold ArgParser.parse
  simp only [h]

theorem parse_of_check_returned (stoi : String → Option Int) (stof : String → Option f32)
    (p q : ArgParser) (argv : List String)
    (h : parseLoop stoi stof p.reset (argv.drop 1) = (q, .returned ()))
    (hc : checkRequired q q.requiredArgumentIndexes = .returned ()) :
    p.parse stoi stof argv = ({ q with m_isParsed := true }, .returned ()) := by
  rw [parse_of_loop_returned stoi stof p q argv h, hc]

theorem parse_of_check_thrown (stoi : String → Option Int) (stof : String → Option f32)
    (p q : ArgParser) (argv : List String) (e : InvalidArgument)
    (h : parseLoop stoi stof p.reset (argv.drop 1) = (q, .returned ()))
    (hc : checkRequired q q.requiredArgumentIndexes = .thrown e) :
    p.parse stoi stof argv = (q, .thrown e) := by
  rw [parse_of_loop_returned stoi stof p q argv h, hc]

/-- The records after `parse` are the records the token loop leaves. -/
theorem parse_arguments (stoi : String → Option Int) (stof : String → Option f32)
    (p : ArgParser) (argv : List String) :
    (p.parse stoi stof argv).1.arguments =
      (parseLoop stoi stof p.reset (argv.drop 1)).1.arguments ∧
    (p.parse stoi stof argv).1.requiredArgumentIndexes =
      (parseLoop stoi stof p.reset (argv.drop 1)).1.requiredArgumentIndexes ∧
    (p.parse stoi stof argv).1.description =
      (parseLoop stoi stof p.reset (argv.drop 1)).1.description := by
  rcases hL : parseLoop stoi stof p.reset (argv.drop 1) with ⟨q, res⟩
  cases res with
  | returned u =>
    cases u
    rw [parse_of_loop_returned stoi stof p q argv hL]
    cases hc : checkRequired q q.requiredArgumentIndexes with
    | returned u => cases u; exact ⟨rfl, rfl, rfl⟩
    | thrown e => exact ⟨rfl, rfl, rfl⟩
    | undefinedBehaviour => exact ⟨rfl, rfl, rfl⟩
  | thrown e =>
    rw [parse_of_loop_thrown stoi stof p q argv e hL]
    exact ⟨rfl, rfl, rfl⟩
  | undefinedBehaviour =>
    rcases parseLoop_result stoi stof p.reset (argv.drop 1) with h | ⟨e, h⟩ <;>
      rw [hL] at h <;> cases h

/-- The method `parse` keeps the declarations. -/
theorem parse_sameDeclarations (stoi : String → Option Int) (stof : String → Option f32)
    (p : ArgParser) (argv : List String) :
    SameDeclarations p (p.parse stoi stof argv).1 := by
  have h1 := (parseLoop_frame stoi stof p.reset (argv.drop 1)).1
  have h2 := (sameDeclarations_reset p).trans h1
  obtain ⟨ha, hr, hd⟩ := parse_arguments stoi stof p argv
  refine ⟨?_, ?_, ?_⟩
  · rw [ArgParser.decls, ha]
    exact h2.1
  · rw [hr]
    exact h2.2.1
  · rw [hd]
    exact h2.2.2

/-! ## Consistency of the required-index list -/

theorem getElem?_decls (p : ArgParser) (i : Nat) :
    p.decls[i]? = (p.arguments[i]?).map ArgumentData.decl := by
  simp [ArgParser.decls, List.getElem?_map]

theorem consistent_iff_decls (p : ArgParser) :
    p.Consistent ↔
      ∀ i, i ∈ p.requiredArgumentIndexes ↔ ∃ d, p.decls[i]? = some d ∧ d.isRequired = true := by
  unfold ArgParser.Consistent
  refine forall_congr' (fun i => ?_)
  rw [getElem?_decls]
  constructor
  · intro h
    rw [h]
    constructor
    · rintro ⟨a, ha, hr⟩
      exact ⟨a.decl, by simp [ha], hr⟩
    · rintro ⟨d, hd, hr⟩
      cases ha : p.arguments[i]? with
      | none => simp [ha] at hd
      | some a =>
        simp [ha] at hd
        subst hd
        exact ⟨a, rfl, hr⟩
  · intro h
    rw [h]
    constructor
    · rintro ⟨d, hd, hr⟩
      cases ha : p.arguments[i]? with
      | none => simp [ha] at hd
      | some a =>
        simp [ha] at hd
        subst hd
        exact ⟨a, rfl, hr⟩
    · rintro ⟨a, ha, hr⟩
      exact ⟨a.decl, by simp [ha], hr⟩

theorem SameDeclarations.consistent {p q : ArgParser} (h : SameDeclarations p q)
    (hp : p.Consistent) : q.Consistent := by
  rw [consistent_iff_decls] at hp ⊢
  rw [h.1, h.2.1]
  exact hp

theorem consistent_create (description : String) : (ArgParser.create description).Consistent := by
  intro i
  simp [ArgParser.create]

/-- What one declaration does to the parser: it appends one record, not yet provided, and
records its index when it is required. -/
theorem declare_eq (p : ArgParser) (d : Declaration) :
    ∃ a : ArgumentData, a.provided = false ∧
      (p.declare d).arguments = p.arguments ++ [a] ∧
      (p.declare d).requiredArgumentIndexes =
        (if a.isRequired = true then p.requiredArgumentIndexes ++ [p.arguments.length]
         else p.requiredArgumentIndexes) ∧
      (p.declare d).m_isParsed = p.m_isParsed ∧
      (p.declare d).description = p.description := by
  cases d <;> exact ⟨_, rfl, rfl, rfl, rfl, rfl⟩

theorem consistent_declare (p : ArgParser) (d : Declaration) (hp : p.Consistent) :
    (p.declare d).Consistent := by
  obtain ⟨a, -, harg, hreq, -, -⟩ := declare_eq p d
  intro i
  rw [harg, hreq]
  have hlen : p.arguments.length ∉ p.requiredArgumentIndexes := by
    intro hc
    rcases (hp _).1 hc with ⟨b, hb, -⟩
    rw [List.getElem?_eq_none (Nat.le_refl _)] at hb
    cases hb
  rcases Nat.lt_trichotomy i p.arguments.length with hi | hi | hi
  · rw [List.getElem?_append_left hi]
    have hne : i ≠ p.arguments.length := Nat.ne_of_lt hi
    rw [← hp i]
    split <;> simp [hne]
  · subst hi
    have : (p.arguments ++ [a])[p.arguments.length]? = some a := by simp
    rw [this]
    cases hr : a.isRequired <;> simp [hlen, hr]
  · have hnone : (p.arguments ++ [a])[i]? = none := by
      apply List.getElem?_eq_none
      simp
      omega
    rw [hnone]
    have hne : i ≠ p.arguments.length := Nat.ne_of_gt hi
    have hnot : i ∉ p.requiredArgumentIndexes := by
      intro hc
      rcases (hp _).1 hc with ⟨b, hb, -⟩
      rw [List.getElem?_eq_none (Nat.le_of_lt hi)] at hb
      cases hb
    split <;> simp [hne, hnot]

/-- Every reachable parser state has a consistent required-index list. -/
theorem reachable_consistent {stoi : String → Option Int} {stof : String → Option f32}
    {p : ArgParser} (h : Reachable stoi stof p) : p.Consistent := by
  induction h with
  | create description => exact consistent_create description
  | declare p d _ ih => exact consistent_declare p d ih
  | parse p argv _ ih => exact (parse_sameDeclarations stoi stof p argv).consistent ih
  | reset p _ ih => exact (sameDeclarations_reset p).consistent ih

/-! ## Freshly declared parsers -/

theorem foldl_declare_fresh (ds : List Declaration) (p : ArgParser)
    (hprov : ∀ a ∈ p.arguments, a.provided = false) (hparsed : p.m_isParsed = false)
    (hcons : p.Consistent) :
    (∀ a ∈ (ds.foldl ArgParser.declare p).arguments, a.provided = false) ∧
      (ds.foldl ArgParser.declare p).m_isParsed = false ∧
      (ds.foldl ArgParser.declare p).Consistent := by
  induction ds generalizing p with
  | nil => exact ⟨hprov, hparsed, hcons⟩
  | cons d rest ih =>
    simp only [List.foldl_cons]
    obtain ⟨a, ha, harg, -, hpars, -⟩ := declare_eq p d
    apply ih
    · intro b hb
      rw [harg] at hb
      rcases List.mem_append.1 hb with hb | hb
      · exact hprov b hb
      · simp at hb
        subst hb
        exact ha
    · rw [hpars]
      exact hparsed
    · exact consistent_declare p d hcons

/-- A freshly declared parser: no record provided, not parsed, consistent. -/
theorem declared_fresh (description : String) (declarations : List Declaration) :
    (∀ a ∈ (ArgParser.declared description declarations).arguments, a.provided = false) ∧
      (ArgParser.declared description declarations).m_isParsed = false ∧
      (ArgParser.declared description declarations).Consistent := by
  apply foldl_declare_fresh
  · intro a ha
    simp [ArgParser.create] at ha
  · rfl
  · exact consistent_create description

/-! ## Resolution of keys across states with the same declarations -/

theorem getElem?_of_decls_eq (p q : ArgParser) (h : q.decls = p.decls) (i : Nat)
    (a : ArgumentData) (ha : p.arguments[i]? = some a) :
    ∃ b, q.arguments[i]? = some b ∧ b.decl = a.decl := by
  have h1 : q.decls[i]? = p.decls[i]? := by rw [h]
  rw [getElem?_decls, getElem?_decls, ha] at h1
  cases hb : q.arguments[i]? with
  | none => simp [hb] at h1
  | some b =>
    simp [hb] at h1
    exact ⟨b, rfl, h1⟩

theorem triggerKeys_of_decl_eq (a b : ArgumentData) (h : b.decl = a.decl) :
    b.triggerKeys = a.triggerKeys :=
  congrArg ArgumentDecl.triggerKeys h

theorem type_of_decl_eq (a b : ArgumentData) (h : b.decl = a.decl) : b.type = a.type :=
  congrArg ArgumentDecl.type h

theorem isRequired_of_decl_eq (a b : ArgumentData) (h : b.decl = a.decl) :
    b.isRequired = a.isRequired :=
  congrArg ArgumentDecl.isRequired h

/-- The first match of a key depends on the declarations only. -/
theorem firstMatch_congr (p q : ArgParser) (h : q.decls = p.decls) (key : String) (n : Nat)
    (a : ArgumentData) (hf : FirstMatch p.arguments key n a) :
    ∃ b, FirstMatch q.arguments key n b ∧ b.decl = a.decl := by
  obtain ⟨b, hb, hd⟩ := getElem?_of_decls_eq p q h n a hf.1
  refine ⟨b, ⟨hb, ?_, ?_⟩, hd⟩
  · rw [triggerKeys_of_decl_eq a b hd]
    exact hf.2.1
  · intro m c hm hc
    obtain ⟨c2, hc2, hd2⟩ := getElem?_of_decls_eq q p h.symm m c hc
    rw [← triggerKeys_of_decl_eq c c2 hd2]
    exact hf.2.2 m c2 hm hc2

/-- The body of `getArgument<T>` at a key that resolves to record `n`. -/
theorem getValue_found {α : Type} (typeName : String) (argParserType : ArgParserType)
    (getStatement : ArgumentData → α) (p : ArgParser) (key : String) (n : Nat)
    (a : ArgumentData) (h : FirstMatch p.arguments key n a) :
    NTT_ARGUMENT_GET_VALUE_DEF typeName argParserType getStatement p key =
      (p, if a.type ≠ argParserType then .thrown (.keyIsNotA typeName a.triggerKeys)
          else .returned (getStatement a)) := by
  have hs := searchByKey_of_firstMatch p key n a h
  unfold NTT_ARGUMENT_GET_VALUE_DEF
  simp only [hs, nat_ne_invalid, if_false, Int.toNat_ofNat, h.1]
  split <;> rfl

theorem getValue_notFound {α : Type} (typeName : String) (argParserType : ArgParserType)
    (getStatement : ArgumentData → α) (p : ArgParser) (key : String)
    (h : p.searchByKey key = NTT_ARGUMENT_INVALID_INDEX) :
    NTT_ARGUMENT_GET_VALUE_DEF typeName argParserType getStatement p key =
      (p, .thrown (.keyNotFound key)) := by
  unfold NTT_ARGUMENT_GET_VALUE_DEF
  simp [h]

theorem currentValue_resetArgument (a : ArgumentData) :
    (resetArgument a).currentValue = a.declaredDefault := by
  rcases a with ⟨_, _, _, _, ty, _, _, _, _⟩
  cases ty <;> rfl

/-- After `parse`, whatever its outcome, a record none of whose trigger keys is among
`argv[1 ..]` is the record `reset` made of it. -/
theorem parse_untouched (stoi : String → Option Int) (stof : String → Option f32)
    (p : ArgParser) (argv : List String) (i : Nat) (a : ArgumentData)
    (hi : p.arguments[i]? = some a) (habsent : ∀ k ∈ a.triggerKeys, k ∉ argv.drop 1) :
    (p.parse stoi stof argv).1.arguments[i]? = some (resetArgument a) := by
  rw [(parse_arguments stoi stof p argv).1]
  apply parseLoop_untouched
  · rw [getElem?_reset, hi]
    rfl
  · rw [triggerKeys_of_decl_eq a _ (decl_resetArgument a)]
    exact habsent

/-- A required record that is not marked provided and has no trigger key among
`argv[1 ..]` makes `parse` throw, and leaves the parsed flag as it was. -/
theorem parse_missing_required (stoi : String → Option Int) (stof : String → Option f32)
    (p : ArgParser) (hcons : p.Consistent) (argv : List String) (r : Nat) (a : ArgumentData)
    (hr : p.arguments[r]? = some a) (hreq : a.isRequired = true) (hnp : a.provided = false)
    (habsent : ∀ k ∈ a.triggerKeys, k ∉ argv.drop 1) :
    (∃ e, (p.parse stoi stof argv).2 = .thrown e) ∧
      (p.parse stoi stof argv).1.m_isParsed = p.m_isParsed ∧
      ((parseLoop stoi stof p.reset (argv.drop 1)).2 = .returned () →
        ∃ keys, (p.parse stoi stof argv).2 = .thrown (.requiredNotProvided keys)) := by
  have hfr := parseLoop_frame stoi stof p.reset (argv.drop 1)
  have hun : (parseLoop stoi stof p.reset (argv.drop 1)).1.arguments[r]? =
      some (resetArgument a) := by
    apply parseLoop_untouched
    · rw [getElem?_reset, hr]
      rfl
    · rw [triggerKeys_of_decl_eq a _ (decl_resetArgument a)]
      exact habsent
  rcases hL : parseLoop stoi stof p.reset (argv.drop 1) with ⟨q, res⟩
  rw [hL] at hfr hun
  simp only at hfr hun
  have hqc : q.Consistent := ((sameDeclarations_reset p).trans hfr.1).consistent hcons
  have hthrow : ∃ keys, checkRequired q q.requiredArgumentIndexes =
      .thrown (.requiredNotProvided keys) := by
    apply checkRequired_thrown
    · intro i hi
      rcases (hqc i).1 hi with ⟨b, hb, -⟩
      exact ⟨b, hb⟩
    · refine ⟨r, (hqc r).2 ⟨_, hun, ?_⟩, _, hun, ?_⟩
      · rw [isRequired_of_decl_eq a _ (decl_resetArgument a)]
        exact hreq
      · rw [provided_resetArgument]
        exact hnp
  cases res with
  | returned u =>
    cases u
    obtain ⟨keys, hkeys⟩ := hthrow
    rw [parse_of_check_thrown stoi stof p q argv _ hL hkeys]
    exact ⟨⟨_, rfl⟩, hfr.2, fun _ => ⟨keys, rfl⟩⟩
  | thrown e =>
    rw [parse_of_loop_thrown stoi stof p q argv e hL]
    refine ⟨⟨e, rfl⟩, hfr.2, ?_⟩
    intro hc
    cases hc
  | undefinedBehaviour =>
    rcases parseLoop_result stoi stof p.reset (argv.drop 1) with h | ⟨e, h⟩ <;>
      rw [hL] at h <;> cases h

theorem firstMatch_reset (p : ArgParser) (key : String) (n : Nat) (a : ArgumentData)
    (hf : FirstMatch p.arguments key n a) :
    FirstMatch p.reset.arguments key n (resetArgument a) := by
  obtain ⟨b, hb, -⟩ := firstMatch_congr p p.reset (sameDeclarations_reset p).1 key n a hf
  have h1 : p.reset.arguments[n]? = some (resetArgument a) := by
    rw [getElem?_reset, hf.1]
    rfl
  have : b = resetArgument a := by
    have h2 := hb.1
    rw [h1] at h2
    cases h2
    rfl
  rw [← this]
  exact hb

/-- The parse of `[prog, k, v]` when `k` resolves to record `idx`, the iteration at `k`
consumes `v` and writes the record `b`, and no other record is required. -/
theorem parse_single (stoi : String → Option Int) (stof : String → Option f32)
    (p : ArgParser) (hcons : p.Consistent) (prog k v : String) (idx : Nat)
    (a b : ArgumentData) (hf : FirstMatch p.arguments k idx a)
    (hreq : ∀ j c, j ≠ idx → p.arguments[j]? = some c → c.isRequired = false)
    (hb : parseIteration stoi stof p.reset k [v] = .advance2 (p.reset.setArgument idx b))
    (hbp : b.provided = true) :
    p.parse stoi stof [prog, k, v] =
      ({ (p.reset.setArgument idx b) with m_isParsed := true }, .returned ()) := by
  have hL : parseLoop stoi stof p.reset ([prog, k, v].drop 1) =
      (p.reset.setArgument idx b, .returned ()) := by
    show parseLoop stoi stof p.reset [k, v] = _
    rw [parseLoop_advance2 stoi stof _ _ k [v] hb]
    exact parseLoop_nil stoi stof _
  apply parse_of_check_returned stoi stof p _ _ hL
  rw [checkRequired_returned_iff]
  intro i hi
  have hi2 : i ∈ p.requiredArgumentIndexes := hi
  rcases (hcons i).1 hi2 with ⟨c, hc, hcr⟩
  have hidx : i = idx := by
    by_contra hne
    rw [hreq i c hne hc] at hcr
    cases hcr
  subst hidx
  exact ⟨b, getElem?_setArgument_eq p.reset i (resetArgument a) b (firstMatch_reset p k i a hf).1, hbp⟩

/-! ## The cursor -/

theorem cursorTrace_advance1 (stoi : String → Option Int) (stof : String → Option f32)
    (p p1 : ArgParser) (arg : String) (rest : List String)
    (h : parseIteration stoi stof p arg rest = .advance1 p1) :
    cursorTrace stoi stof p (arg :: rest) = (p, arg :: rest) :: cursorTrace stoi stof p1 rest := by
  simp [cursorTrace, h]

theorem cursorTrace_advance2 (stoi : String → Option Int) (stof : String → Option f32)
    (p p1 : ArgParser) (arg : String) (rest : List String)
    (h : parseIteration stoi stof p arg rest = .advance2 p1) :
    cursorTrace stoi stof p (arg :: rest) =
      (p, arg :: rest) :: cursorTrace stoi stof p1 (rest.drop 1) := by
  cases rest with
  | nil => simp [cursorTrace, h]
  | cons next rest2 => simp [cursorTrace, h]

theorem cursorTrace_thrown (stoi : String → Option Int) (stof : String → Option f32)
    (p : ArgParser) (arg : String) (rest : List String) (e : InvalidArgument)
    (h : parseIteration stoi stof p arg rest = .thrown e) :
    cursorTrace stoi stof p (arg :: rest) = [(p, arg :: rest)] := by
  simp [cursorTrace, h]

/-- The cursor is at the start of the tokens before the first iteration. -/
theorem CursorReaches.start (stoi : String → Option Int) (stof : String → Option f32)
    (p : ArgParser) (ts : List String) : CursorReaches stoi stof p ts p ts := by
  cases ts with
  | nil => simp [CursorReaches, cursorTrace]
  | cons arg rest => simp [CursorReaches, cursorTrace]

/-- An iteration that moves the cursor by one leads to whatever the loop reaches from the
next token. -/
theorem CursorReaches.advance1 {stoi : String → Option Int} {stof : String → Option f32}
    (p p1 q : ArgParser) (arg : String) (rest us : List String)
    (hit : parseIteration stoi stof p arg rest = .advance1 p1)
    (h : CursorReaches stoi stof p1 rest q us) :
    CursorReaches stoi stof p (arg :: rest) q us := by
  unfold CursorReaches
  rw [cursorTrace_advance1 stoi stof p p1 arg rest hit]
  exact List.mem_cons_of_mem _ h

/-- An iteration that moves the cursor by two leads to whatever the loop reaches from the
token after the next. -/
theorem CursorReaches.advance2 {stoi : String → Option Int} {stof : String → Option f32}
    (p p1 q : ArgParser) (arg : String) (rest us : List String)
    (hit : parseIteration stoi stof p arg rest = .advance2 p1)
    (h : CursorReaches stoi stof p1 (rest.drop 1) q us) :
    CursorReaches stoi stof p (arg :: rest) q us := by
  unfold CursorReaches
  rw [cursorTrace_advance2 stoi stof p p1 arg rest hit]
  exact List.mem_cons_of_mem _ h

/-- Induction along the cursor positions of a run. -/
theorem cursorReaches_induct (stoi : String → Option Int) (stof : String → Option f32)
    (motive : ArgParser → List String → ArgParser → List String → Prop)
    (start : ∀ p ts, motive p ts p ts)
    (adv1 : ∀ p p1 q arg rest us, parseIteration stoi stof p arg rest = .advance1 p1 →
      CursorReaches stoi stof p1 rest q us → motive p1 rest q us →
      motive p (arg :: rest) q us)
    (adv2 : ∀ p p1 q arg rest us, parseIteration stoi stof p arg rest = .advance2 p1 →
      CursorReaches stoi stof p1 (rest.drop 1) q us → motive p1 (rest.drop 1) q us →
      motive p (arg :: rest) q us) :
    ∀ p ts q us, CursorReaches stoi stof p ts q us → motive p ts q us := by
  intro p ts q us
  refine parseLoop_induct stoi stof
    (fun p ts => CursorReaches stoi stof p ts q us → motive p ts q us) ?_ ?_ ?_ ?_ p ts
  · intro p h
    simp only [CursorReaches, cursorTrace, List.mem_singleton, Prod.mk.injEq] at h
    obtain ⟨rfl, rfl⟩ := h
    exact start _ _
  · intro p arg rest e he h
    unfold CursorReaches at h
    rw [cursorTrace_thrown stoi stof p arg rest e he] at h
    simp only [List.mem_singleton, Prod.mk.injEq] at h
    obtain ⟨rfl, rfl⟩ := h
    exact start _ _
  · intro p p1 arg rest hit ih h
    unfold CursorReaches at h
    rw [cursorTrace_advance1 stoi stof p p1 arg rest hit] at h
    rcases List.mem_cons.1 h with h | h
    · simp only [Prod.mk.injEq] at h
      obtain ⟨rfl, rfl⟩ := h
      exact start _ _
    · exact adv1 p p1 q arg rest us hit h (ih h)
  · intro p p1 arg rest hit ih h
    unfold CursorReaches at h
    rw [cursorTrace_advance2 stoi stof p p1 arg rest hit] at h
    rcases List.mem_cons.1 h with h | h
    · simp only [Prod.mk.injEq] at h
      obtain ⟨rfl, rfl⟩ := h
      exact start _ _
    · exact adv2 p p1 q arg rest us hit h (ih h)

theorem CursorReaches.parseLoop_eq {stoi : String → Option Int} {stof : String → Option f32}
    {p q : ArgParser} {ts us : List String} (h : CursorReaches stoi stof p ts q us) :
    parseLoop stoi stof p ts = parseLoop stoi stof q us := by
  refine cursorReaches_induct stoi stof
    (fun p ts q us => parseLoop stoi stof p ts = parseLoop stoi stof q us) ?_ ?_ ?_ p ts q us h
  · intro p ts
    rfl
  · intro p p1 q arg rest us hit _ ih
    rw [parseLoop_advance1 stoi stof p p1 arg rest hit]
    exact ih
  · intro p p1 q arg rest us hit _ ih
    rw [parseLoop_advance2 stoi stof p p1 arg rest hit]
    exact ih

theorem CursorReaches.frame {stoi : String → Option Int} {stof : String → Option f32}
    {p q : ArgParser} {ts us : List String} (h : CursorReaches stoi stof p ts q us) :
    SameDeclarations p q ∧ q.m_isParsed = p.m_isParsed := by
  refine cursorReaches_induct stoi stof
    (fun p _ q _ => SameDeclarations p q ∧ q.m_isParsed = p.m_isParsed) ?_ ?_ ?_ p ts q us h
  · intro p _
    exact ⟨SameDeclarations.refl p, rfl⟩
  · intro p p1 q arg rest us hit _ ih
    have hf := parseIteration_frame stoi stof p p1 arg rest (Or.inl hit)
    exact ⟨hf.1.trans ih.1, ih.2.trans hf.2⟩
  · intro p p1 q arg rest us hit _ ih
    have hf := parseIteration_frame stoi stof p p1 arg rest (Or.inr hit)
    exact ⟨hf.1.trans ih.1, ih.2.trans hf.2⟩

/-- An iteration looks at most one token ahead. -/
theorem parseIteration_lookahead (stoi : String → Option Int) (stof : String → Option f32)
    (p : ArgParser) (arg next : String) (t t2 : List String) :
    parseIteration stoi stof p arg (next :: t) = parseIteration stoi stof p arg (next :: t2) := by
  rcases searchByKey_cases p arg with h | ⟨n, a, hf, -⟩
  · rw [parseIteration_notFound stoi stof p arg _ h, parseIteration_notFound stoi stof p arg _ h]
  · rw [parseIteration_found stoi stof p arg _ n a hf,
      parseIteration_found stoi stof p arg _ n a hf]

/-- The tokens ahead of a reached cursor are a suffix of the tokens the loop started on,
and the run up to that cursor does not depend on the tokens after the one under it. -/
theorem CursorReaches.independent {stoi : String → Option Int} {stof : String → Option f32}
    {p q : ArgParser} {ts us : List String} (h : CursorReaches stoi stof p ts q us) :
    ∀ u post, us = u :: post →
      ∃ pre, ts = pre ++ u :: post ∧
        ∀ post2, CursorReaches stoi stof p (pre ++ u :: post2) q (u :: post2) := by
  refine cursorReaches_induct stoi stof
    (fun p ts q us => ∀ u post, us = u :: post →
      ∃ pre, ts = pre ++ u :: post ∧
        ∀ post2, CursorReaches stoi stof p (pre ++ u :: post2) q (u :: post2))
    ?_ ?_ ?_ p ts q us h
  · intro p ts u post hus
    exact ⟨[], by simpa using hus, fun post2 => CursorReaches.start stoi stof p _⟩
  · intro p p1 q arg rest us hit _ ih u post hus
    obtain ⟨pre, hpre, hrun⟩ := ih u post hus
    refine ⟨arg :: pre, by simp [hpre], fun post2 => ?_⟩
    refine CursorReaches.advance1 p p1 q arg _ _ ?_ (hrun post2)
    rw [← hit, hpre]
    cases pre with
    | nil => exact parseIteration_lookahead stoi stof p arg u post2 post
    | cons x pre2 => exact parseIteration_lookahead stoi stof p arg x _ _
  · intro p p1 q arg rest us hit _ ih u post hus
    obtain ⟨pre, hpre, hrun⟩ := ih u post hus
    cases rest with
    | nil => simp at hpre
    | cons x rest2 =>
      simp only [List.drop_succ_cons, List.drop_zero] at hpre
      subst hpre
      refine ⟨arg :: x :: pre, by simp, fun post2 => ?_⟩
      refine CursorReaches.advance2 p p1 q arg (x :: (pre ++ u :: post2)) _ ?_ ?_
      · rw [← hit]
        exact parseIteration_lookahead stoi stof p arg x _ _
      · simpa using hrun post2

theorem checkRequired_result (p : ArgParser) (l : List Nat) :
    checkRequired p l = .returned () ∨ checkRequired p l = .undefinedBehaviour ∨
      ∃ keys, checkRequired p l = .thrown (.requiredNotProvided keys) := by
  induction l with
  | nil => exact Or.inl rfl
  | cons index rest ih =>
    unfold checkRequired
    cases h : p.arguments[index]? with
    | none => exact Or.inr (Or.inl rfl)
    | some a =>
      cases hp : a.provided with
      | false => exact Or.inr (Or.inr ⟨a.triggerKeys, by simp [hp]⟩)
      | true => simpa [hp] using ih

/-! ## getArgument -/

theorem getValue_state {α : Type} (typeName : String) (argParserType : ArgParserType)
    (getStatement : ArgumentData → α) (p : ArgParser) (key : String) :
    (NTT_ARGUMENT_GET_VALUE_DEF typeName argParserType getStatement p key).1 = p := by
  rcases searchByKey_cases p key with h | ⟨n, a, hf, -⟩
  · rw [getValue_notFound typeName argParserType getStatement p key h]
  · rw [getValue_found typeName argParserType getStatement p key n a hf]

theorem getValue_keyNotFound_iff {α : Type} (typeName : String) (argParserType : ArgParserType)
    (getStatement : ArgumentData → α) (p : ArgParser) (key : String) :
    (NTT_ARGUMENT_GET_VALUE_DEF typeName argParserType getStatement p key).2 =
        .thrown (.keyNotFound key) ↔
      ∀ a ∈ p.arguments, key ∉ a.triggerKeys := by
  rcases searchByKey_cases p key with h | ⟨n, a, hf, -⟩
  · rw [getValue_notFound typeName argParserType getStatement p key h]
    simp only [true_iff]
    exact (searchByKey_invalid_iff p key).1 h
  · rw [getValue_found typeName argParserType getStatement p key n a hf]
    constructor
    · intro hc
      simp only at hc
      split at hc <;> cases hc
    · intro hc
      exact absurd hf.2.1 (hc a (List.getElem?_mem hf.1))

/-! ## Further lemmas on the run of the loop -/

/-- The run up to a reached cursor consumes a front part `pre` of the tokens, and leaves
every record as it is when none of its trigger keys is in `pre`. -/
theorem cursorReaches_untouched {stoi : String → Option Int} {stof : String → Option f32}
    {p q : ArgParser} {ts us : List String} (h : CursorReaches stoi stof p ts q us) :
    ∃ pre, ts = pre ++ us ∧
      ∀ (r : Nat) (a : ArgumentData), p.arguments[r]? = some a →
        (∀ k ∈ a.triggerKeys, k ∉ pre) →
        q.arguments[r]? = some a := by
  refine cursorReaches_induct stoi stof
    (fun p ts q us => ∃ pre, ts = pre ++ us ∧
      ∀ (r : Nat) (a : ArgumentData), p.arguments[r]? = some a →
        (∀ k ∈ a.triggerKeys, k ∉ pre) →
        q.arguments[r]? = some a) ?_ ?_ ?_ p ts q us h
  · intro p ts
    exact ⟨[], rfl, fun r a ha _ => ha⟩
  · intro p p1 q arg rest us hit _ ih
    obtain ⟨pre, hpre, hun⟩ := ih
    refine ⟨arg :: pre, by simp [hpre], ?_⟩
    intro r a ha hk
    have harg : arg ∉ a.triggerKeys := fun hc => hk arg hc (List.mem_cons_self _ _)
    refine hun r a (parseIteration_untouched stoi stof p p1 arg rest r a (Or.inl hit) ha harg) ?_
    intro k hka hc
    exact hk k hka (List.mem_cons_of_mem _ hc)
  · intro p p1 q arg rest us hit _ ih
    obtain ⟨pre, hpre, hun⟩ := ih
    cases rest with
    | nil =>
      refine ⟨arg :: pre, by simpa using hpre, ?_⟩
      intro r a ha hk
      have harg : arg ∉ a.triggerKeys := fun hc => hk arg hc (List.mem_cons_self _ _)
      refine hun r a (parseIteration_untouched stoi stof p p1 arg [] r a (Or.inr hit) ha harg) ?_
      intro k hka hc
      exact hk k hka (List.mem_cons_of_mem _ hc)
    | cons x rest2 =>
      simp only [List.drop_succ_cons, List.drop_zero] at hpre
      refine ⟨arg :: x :: pre, by simp [hpre], ?_⟩
      intro r a ha hk
      have harg : arg ∉ a.triggerKeys := fun hc => hk arg hc (List.mem_cons_self _ _)
      refine hun r a
        (parseIteration_untouched stoi stof p p1 arg (x :: rest2) r a (Or.inr hit) ha harg) ?_
      intro k hka hc
      exact hk k hka (List.mem_cons_of_mem _ (List.mem_cons_of_mem _ hc))

/-- A run that has reached a token whose iteration moves the cursor by one reaches the
next token. -/
theorem cursorReaches_step1 {stoi : String → Option Int} {stof : String → Option f32}
    {p q : ArgParser} {ts us : List String} (h : CursorReaches stoi stof p ts q us) :
    ∀ arg rest q2, us = arg :: rest → parseIteration stoi stof q arg rest = .advance1 q2 →
      CursorReaches stoi stof p ts q2 rest := by
  refine cursorReaches_induct stoi stof
    (fun p ts q us => ∀ arg rest q2, us = arg :: rest →
      parseIteration stoi stof q arg rest = .advance1 q2 →
      CursorReaches stoi stof p ts q2 rest) ?_ ?_ ?_ p ts q us h
  · intro p ts arg rest q2 hus hit
    subst hus
    exact CursorReaches.advance1 p q2 q2 arg rest rest hit (CursorReaches.start stoi stof q2 rest)
  · intro p p1 q arg0 rest0 us hit0 _ ih arg rest q2 hus hit
    exact CursorReaches.advance1 p p1 q2 arg0 rest0 rest hit0 (ih arg rest q2 hus hit)
  · intro p p1 q arg0 rest0 us hit0 _ ih arg rest q2 hus hit
    exact CursorReaches.advance2 p p1 q2 arg0 rest0 rest hit0 (ih arg rest q2 hus hit)

theorem firstMatch_unique (args : List ArgumentData) (key : String) (n m : Nat)
    (a b : ArgumentData) (h1 : FirstMatch args key n a) (h2 : FirstMatch args key m b) :
    n = m ∧ a = b := by
  have hnm : n = m := by
    rcases Nat.lt_trichotomy n m with h | h | h
    · exact absurd h1.2.1 (h2.2.2 n a h h1.1)
    · exact h
    · exact absurd h2.2.1 (h1.2.2 m b h h2.1)
  subst hnm
  exact ⟨rfl, Option.some.inj (h1.1.symm.trans h2.1)⟩

/-- A key followed by a value token that its kind accepts: the iteration consumes both
and marks the resolved record provided. -/
theorem parseIteration_pair (stoi : String → Option Int) (stof : String → Option f32)
    (p : ArgParser) (k v : String) (rest : List String) (n : Nat) (a : ArgumentData)
    (hf : FirstMatch p.arguments k n a)
    (hlit : a.type = .BOOL → v = "true" ∨ v = "false") :
    ∃ b, parseIteration stoi stof p k (v :: rest) = .advance2 (p.setArgument n b) ∧
      b.decl = a.decl ∧ b.provided = true := by
  cases hty : a.type with
  | STRING => exact ⟨_, parseIteration_string stoi stof p k v rest n a hf hty, by rfl, by rfl⟩
  | I32 => exact ⟨_, parseIteration_i32 stoi stof p k v rest n a hf hty, by rfl, by rfl⟩
  | F32 => exact ⟨_, parseIteration_f32 stoi stof p k v rest n a hf hty, by rfl, by rfl⟩
  | BOOL =>
    exact ⟨_, parseIteration_bool_literal stoi stof p k v rest n a hf hty (hlit hty), by rfl,
      by rfl⟩

/-- The token loop on well-formed key/value pairs returns, with every record a key
resolves to marked provided and every record that was provided still provided. -/
theorem parseLoop_pairs (stoi : String → Option Int) (stof : String → Option f32)
    (pairs : List (String × String)) :
    ∀ p : ArgParser,
      (∀ kv ∈ pairs, ∃ n a, FirstMatch p.arguments kv.1 n a ∧
        (a.type = .BOOL → kv.2 = "true" ∨ kv.2 = "false")) →
      ∃ q, parseLoop stoi stof p (pairTokens pairs) = (q, .returned ()) ∧
        (∀ kv ∈ pairs, ∀ (n : Nat) (a : ArgumentData), FirstMatch p.arguments kv.1 n a →
          ∃ b, q.arguments[n]? = some b ∧ b.provided = true) ∧
        (∀ (r : Nat) (a : ArgumentData), p.arguments[r]? = some a → a.provided = true →
          ∃ b, q.arguments[r]? = some b ∧ b.provided = true) := by
  induction pairs with
  | nil =>
    intro p _
    refine ⟨p, parseLoop_nil stoi stof p, ?_, ?_⟩
    · intro kv hkv
      cases hkv
    · intro r a ha hp
      exact ⟨a, ha, hp⟩
  | cons kv rest ih =>
    intro p hwf
    obtain ⟨n, a, hf, hlit⟩ := hwf kv (List.mem_cons_self _ _)
    obtain ⟨b, hit, hbd, hbp⟩ :=
      parseIteration_pair stoi stof p kv.1 kv.2 (pairTokens rest) n a hf hlit
    have hdecl : (p.setArgument n b).decls = p.decls := decls_setArgument p n a b hf.1 hbd
    have hwf2 : ∀ kv2 ∈ rest, ∃ n2 a2, FirstMatch (p.setArgument n b).arguments kv2.1 n2 a2 ∧
        (a2.type = .BOOL → kv2.2 = "true" ∨ kv2.2 = "false") := by
      intro kv2 hkv2
      obtain ⟨n2, a2, hf2, hlit2⟩ := hwf kv2 (List.mem_cons_of_mem _ hkv2)
      obtain ⟨b2, hfb2, hbd2⟩ := firstMatch_congr p (p.setArgument n b) hdecl kv2.1 n2 a2 hf2
      refine ⟨n2, b2, hfb2, ?_⟩
      intro hty
      apply hlit2
      rw [← type_of_decl_eq a2 b2 hbd2]
      exact hty
    obtain ⟨q, hq, hprov, hmono⟩ := ih (p.setArgument n b) hwf2
    have hstep : ∀ (r : Nat) (c : ArgumentData), p.arguments[r]? = some c → c.provided = true →
        ∃ d, (p.setArgument n b).arguments[r]? = some d ∧ d.provided = true := by
      intro r c hc hcp
      by_cases hnr : n = r
      · subst hnr
        exact ⟨b, getElem?_setArgument_eq p n a b hf.1, hbp⟩
      · exact ⟨c, by rw [getElem?_setArgument_ne p n r b hnr]; exact hc, hcp⟩
    refine ⟨q, ?_, ?_, ?_⟩
    · show parseLoop stoi stof p (kv.1 :: kv.2 :: pairTokens rest) = _
      rw [parseLoop_advance2 stoi stof p _ kv.1 (kv.2 :: pairTokens rest) hit]
      exact hq
    · intro kv2 hkv2 n2 a2 hf2
      rcases List.mem_cons.1 hkv2 with rfl | hmem
      · obtain ⟨hn, -⟩ := firstMatch_unique p.arguments kv2.1 n n2 a a2 hf hf2
        subst hn
        exact hmono n b (getElem?_setArgument_eq p n a b hf.1) hbp
      · obtain ⟨b2, hfb2, -⟩ := firstMatch_congr p (p.setArgument n b) hdecl kv2.1 n2 a2 hf2
        exact hprov kv2 hmem n2 b2 hfb2
    · intro r c hc hcp
      obtain ⟨d, hd, hdp⟩ := hstep r c hc hcp
      exact hmono r d hd hdp

/-- The parse of `prog, k1, v1, ..., kn, vn` in a consistent state: each key resolves, each
value of a BOOL key is a literal, and every required record is the resolution of a key. -/
theorem parse_pairs (stoi : String → Option Int) (stof : String → Option f32)
    (p : ArgParser) (hcons : p.Consistent) (prog : String) (pairs : List (String × String))
    (hkeys : ∀ kv ∈ pairs, ∃ (n : Nat) (a : ArgumentData),
      p.searchByKey kv.1 = (n : Int) ∧ p.arguments[n]? = some a ∧
      (a.type = .BOOL → kv.2 = "true" ∨ kv.2 = "false"))
    (hreq : ∀ (r : Nat) (a : ArgumentData), p.arguments[r]? = some a → a.isRequired = true →
      ∃ kv ∈ pairs, p.searchByKey kv.1 = (r : Int)) :
    (p.parse stoi stof (prog :: pairTokens pairs)).2 = .returned () ∧
      (p.parse stoi stof (prog :: pairTokens pairs)).1.m_isParsed = true := by
  have hwf : ∀ kv ∈ pairs, ∃ n a, FirstMatch p.reset.arguments kv.1 n a ∧
      (a.type = .BOOL → kv.2 = "true" ∨ kv.2 = "false") := by
    intro kv hkv
    obtain ⟨n, a, hs, ha, hlit⟩ := hkeys kv hkv
    obtain ⟨a2, hf⟩ := firstMatch_of_searchByKey p kv.1 n hs
    have ha2 : a2 = a := Option.some.inj (hf.1.symm.trans ha)
    subst ha2
    refine ⟨n, resetArgument a2, firstMatch_reset p kv.1 n a2 hf, ?_⟩
    intro hty
    apply hlit
    rw [← type_of_decl_eq a2 _ (decl_resetArgument a2)]
    exact hty
  obtain ⟨q, hq, hprov, -⟩ := parseLoop_pairs stoi stof pairs p.reset hwf
  have hL : parseLoop stoi stof p.reset ((prog :: pairTokens pairs).drop 1) = (q, .returned ()) :=
    hq
  have hfr := parseLoop_frame stoi stof p.reset (pairTokens pairs)
  rw [hq] at hfr
  have hsame := (sameDeclarations_reset p).trans hfr.1
  have hc : checkRequired q q.requiredArgumentIndexes = .returned () := by
    rw [checkRequired_returned_iff]
    intro i hi
    rw [hsame.2.1] at hi
    obtain ⟨c, hc, hcr⟩ := (hcons i).1 hi
    obtain ⟨kv, hkv, hs⟩ := hreq i c hc hcr
    obtain ⟨c2, hf⟩ := firstMatch_of_searchByKey p kv.1 i hs
    exact hprov kv hkv i _ (firstMatch_reset p kv.1 i c2 hf)
  rw [parse_of_check_returned stoi stof p q _ hL hc]
  exact ⟨rfl, rfl⟩

/-- The record a declaration appends: not provided, its current value and its stored
default both the default given in the declaration. -/
theorem declare_record (p : ArgParser) (d : Declaration) :
    ∃ a : ArgumentData, (p.declare d).arguments = p.arguments ++ [a] ∧
      a.provided = false ∧ a.currentValue = d.typedDefault ∧
      a.declaredDefault = d.typedDefault := by
  cases d <;> exact ⟨_, rfl, rfl, rfl, rfl⟩

theorem declare_decls (p : ArgParser) (d : Declaration) :
    (p.declare d).decls = p.decls ++ [d.decl] := by
  cases d <;> simp [ArgParser.decls, ArgParser.declare, ArgParser.addArgumentString,
    ArgParser.addArgumentI32, ArgParser.addArgumentF32, ArgParser.addArgumentBool,
    NTT_ARGUMENT_ADD_ARGUMENT_DEF, ArgumentData.decl, Declaration.decl, ArgumentValue.init]

/-- The declared parts of the records are those of the declarations made, in order. -/
theorem declaredBy_decls {stoi : String → Option Int} {stof : String → Option f32}
    {ds : List Declaration} {p : ArgParser} (h : DeclaredBy stoi stof ds p) :
    p.decls = ds.map Declaration.decl := by
  induction h with
  | create description => rfl
  | declare ds p d _ ih => rw [declare_decls, ih, List.map_append, List.map_singleton]
  | parse ds p argv _ ih => rw [(parse_sameDeclarations stoi stof p argv).1, ih]
  | reset ds p _ ih => rw [(sameDeclarations_reset p).1, ih]

theorem declaredBy_record {stoi : String → Option Int} {stof : String → Option f32}
    {ds : List Declaration} {p : ArgParser} (h : DeclaredBy stoi stof ds p)
    (i : Nat) (d : Declaration) (hd : ds[i]? = some d) :
    ∃ a, p.arguments[i]? = some a ∧ a.decl = d.decl := by
  have h1 : p.decls[i]? = some d.decl := by
    rw [declaredBy_decls h, List.getElem?_map, hd]
    rfl
  rw [getElem?_decls] at h1
  cases ha : p.arguments[i]? with
  | none => simp [ha] at h1
  | some a =>
    simp [ha] at h1
    exact ⟨a, rfl, h1⟩

theorem declaredDefault_of_decl (a : ArgumentData) (d : Declaration) (h : a.decl = d.decl) :
    a.declaredDefault = d.typedDefault := by
  rcases a with ⟨keys, desc, sv, dsv, ty, v, dv, req, prov⟩
  cases d <;> simp only [ArgumentData.decl, Declaration.decl, ArgumentDecl.mk.injEq] at h <;>
    obtain ⟨-, -, rfl, -, rfl, rfl⟩ := h <;> rfl

theorem declaredBy_foldl (stoi : String → Option Int) (stof : String → Option f32)
    (ds : List Declaration) :
    ∀ (ds0 : List Declaration) (p0 : ArgParser), DeclaredBy stoi stof ds0 p0 →
      DeclaredBy stoi stof (ds0 ++ ds) (ds.foldl ArgParser.declare p0) := by
  induction ds with
  | nil =>
    intro ds0 p0 h
    simpa using h
  | cons d rest ih =>
    intro ds0 p0 h
    have := ih (ds0 ++ [d]) (p0.declare d) (DeclaredBy.declare ds0 p0 d h)
    simpa using this

/-- A freshly declared parser is declared by its declarations. -/
theorem declaredBy_declared (stoi : String → Option Int) (stof : String → Option f32)
    (description : String) (declarations : List Declaration) :
    DeclaredBy stoi stof declarations (ArgParser.declared description declarations) := by
  have := declaredBy_foldl stoi stof declarations [] (ArgParser.create description)
    (DeclaredBy.create description)
  simpa [ArgParser.declared] using this

/-- After `reset()` a record keeps its declaration, its current value is its stored
default, and `getArgument` of its type returns that default for every key that resolves
to it. -/
theorem reset_restores_stored_default (p : ArgParser) (i : Nat) (a : ArgumentData)
    (hi : p.arguments[i]? = some a) :
    ∃ b, p.reset.arguments[i]? = some b ∧ b.decl = a.decl ∧
      b.currentValue = a.declaredDefault ∧
      ∀ key, p.reset.searchByKey key = (i : Int) →
        (a.type = .STRING →
          (p.reset.getArgumentString key).2 = .returned a.defaultStringValue) ∧
        (a.type = .I32 →
          (p.reset.getArgumentI32 key).2 = .returned a.defaultValue.i32Value) ∧
        (a.type = .F32 →
          (p.reset.getArgumentF32 key).2 = .returned a.defaultValue.f32Value) ∧
        (a.type = .BOOL →
          (p.reset.getArgumentBool key).2 = .returned a.defaultValue.boolValue) := by
  have hb : p.reset.arguments[i]? = some (resetArgument a) := by
    rw [getElem?_reset, hi]
    rfl
  refine ⟨resetArgument a, hb, decl_resetArgument a, currentValue_resetArgument a, ?_⟩
  intro key hkey
  obtain ⟨b, hf⟩ := firstMatch_of_searchByKey p.reset key i hkey
  have hbe : b = resetArgument a := Option.some.inj (hf.1.symm.trans hb)
  subst hbe
  refine ⟨?_, ?_, ?_, ?_⟩
  · intro hty
    unfold ArgParser.getArgumentString
    rw [getValue_found _ _ _ _ key i _ hf]
    rcases a with ⟨_, _, _, _, ty, _, _, _, _⟩
    cases hty
    rfl
  · intro hty
    unfold ArgParser.getArgumentI32
    rw [getValue_found _ _ _ _ key i _ hf]
    rcases a with ⟨_, _, _, _, ty, _, _, _, _⟩
    cases hty
    rfl
  · intro hty
    unfold ArgParser.getArgumentF32
    rw [getValue_found _ _ _ _ key i _ hf]
    rcases a with ⟨_, _, _, _, ty, _, _, _, _⟩
    cases hty
    rfl
  · intro hty
    unfold ArgParser.getArgumentBool
    rw [getValue_found _ _ _ _ key i _ hf]
    rcases a with ⟨_, _, _, _, ty, _, _, _, _⟩
    cases hty
    rfl

/-- The required check throws for record `idx` when it is listed and not provided while
every other listed record is provided. -/
theorem checkRequired_only_missing (p : ArgParser) (l : List Nat) (idx : Nat)
    (a : ArgumentData)
    (hin : ∀ i ∈ l, i ≠ idx → ∃ e, p.arguments[i]? = some e ∧ e.provided = true)
    (hidx : idx ∈ l) (ha : p.arguments[idx]? = some a) (hnp : a.provided = false) :
    checkRequired p l = .thrown (.requiredNotProvided a.triggerKeys) := by
  induction l with
  | nil => cases hidx
  | cons index rest ih =>
    unfold checkRequired
    by_cases hi : index = idx
    · subst hi
      simp [ha, hnp]
    · obtain ⟨e, he, hep⟩ := hin index (List.mem_cons_self _ _) hi
      simp only [he, hep, Bool.not_true, Bool.false_eq_true, if_false]
      apply ih
      · intro i hmem hne
        exact hin i (List.mem_cons_of_mem _ hmem) hne
      · rcases List.mem_cons.1 hidx with h | h
        · exact absurd h.symm hi
        · exact h

/-- The parse of `prog, k, v, u` when `k` resolves to a STRING record and `u` is not a
declared key: the value is stored, then the unknown key aborts the call. -/
theorem parse_value_then_unknown (stoi : String → Option Int) (stof : String → Option f32)
    (p : ArgParser) (prog k v u : String) (idx : Nat) (a : ArgumentData)
    (hf : FirstMatch p.arguments k idx a) (hty : a.type = .STRING)
    (hu : ∀ d ∈ p.arguments, u ∉ d.triggerKeys) :
    p.parse stoi stof [prog, k, v, u] =
      (p.reset.setArgument idx { resetArgument a with stringValue := v, provided := true },
       .thrown (.keyNotFound u)) := by
  have hfr := firstMatch_reset p k idx a hf
  have hrty : (resetArgument a).type = .STRING := by
    rw [type_of_decl_eq a _ (decl_resetArgument a)]
    exact hty
  have hit := parseIteration_string stoi stof p.reset k v [u] idx (resetArgument a) hfr hrty
  have hset := sameDeclarations_setArgument p.reset idx (resetArgument a)
    { resetArgument a with stringValue := v, provided := true } hfr.1 rfl
  have hdecl := ((sameDeclarations_reset p).trans hset).1
  have hqs : (p.reset.setArgument idx
      { resetArgument a with stringValue := v, provided := true }).searchByKey u =
      NTT_ARGUMENT_INVALID_INDEX := by
    rw [searchByKey_congr p _ u hdecl]
    exact (searchByKey_invalid_iff p u).2 hu
  apply parse_of_loop_thrown
  show parseLoop stoi stof p.reset [k, v, u] = _
  rw [parseLoop_advance2 stoi stof _ _ k [v, u] hit]
  exact parseLoop_thrown stoi stof _ u [] _ (parseIteration_notFound stoi stof _ u [] hqs)

/-! ## The claims -/

/-- C1. Round trip through every alias: in every parser state (its required-index list
agreeing with the `isRequired` flags, as in every reachable state) where a STRING argument
`a` has trigger keys none of which is a trigger key of an earlier-declared argument, and
where no other argument is required, for every trigger key `k` of `a` and every string `v`
(a declared trigger key or not) `parse([prog, k, v])` succeeds and afterwards
`getArgument<String>(k2)` returns exactly `v` for every trigger key `k2` of `a`. -/
theorem C1_round_trip_through_every_alias
    (stoi : String → Option Int) (stof : String → Option f32)
    (p : ArgParser) (hcons : p.Consistent) (idx : Nat) (a : ArgumentData) (prog k v : String)
    (ha : p.arguments[idx]? = some a) (hty : a.type = .STRING)
    (hfirst : ∀ j b, j < idx → p.arguments[j]? = some b →
      ∀ k2 ∈ a.triggerKeys, k2 ∉ b.triggerKeys)
    (hreq : ∀ j b, j ≠ idx → p.arguments[j]? = some b → b.isRequired = false)
    (hk : k ∈ a.triggerKeys) :
    (p.parse stoi stof [prog, k, v]).2 = .returned () ∧
      (p.parse stoi stof [prog, k, v]).1.isParsed = true ∧
      ∀ k2 ∈ a.triggerKeys,
        ((p.parse stoi stof [prog, k, v]).1.getArgumentString k2).2 = .returned v := by
  have hfm : ∀ k2 ∈ a.triggerKeys, FirstMatch p.arguments k2 idx a := fun k2 hk2 =>
    ⟨ha, hk2, fun m b hm hb => hfirst m b hm hb k2 hk2⟩
  have hfr := firstMatch_reset p k idx a (hfm k hk)
  have hrty : (resetArgument a).type = .STRING := by
    rw [type_of_decl_eq a _ (decl_resetArgument a)]
    exact hty
  have hit := parseIteration_string stoi stof p.reset k v [] idx (resetArgument a) hfr hrty
  have hp := parse_single stoi stof p hcons prog k v idx a _ (hfm k hk) hreq hit rfl
  rw [hp]
  refine ⟨rfl, rfl, ?_⟩
  intro k2 hk2
  have hset : SameDeclarations p.reset
      (p.reset.setArgument idx { resetArgument a with stringValue := v, provided := true }) :=
    sameDeclarations_setArgument p.reset idx (resetArgument a) _ hfr.1 rfl
  have hdecl := ((sameDeclarations_reset p).trans hset).1
  obtain ⟨b, hb, -⟩ := firstMatch_congr p
    { (p.reset.setArgument idx { resetArgument a with stringValue := v, provided := true }) with
      m_isParsed := true } hdecl k2 idx a (hfm k2 hk2)
  have hbe : b = { resetArgument a with stringValue := v, provided := true } := by
    have h1 := hb.1
    have h2 := getElem?_setArgument_eq p.reset idx (resetArgument a)
      { resetArgument a with stringValue := v, provided := true } hfr.1
    have h3 : some b = some { resetArgument a with stringValue := v, provided := true } :=
      h1.symm.trans h2
    exact Option.some.inj h3
  unfold ArgParser.getArgumentString
  rw [getValue_found _ _ _ _ k2 idx b hb, hbe]
  simp [hrty]

/-- Witness of C1: a required STRING argument `-v` / `--version` declared before a BOOL
flag, parsed on `prog --version --use-color`, the value being itself a declared trigger
key: both aliases return `--use-color`. -/
theorem C1_round_trip_through_every_alias_witness :
    ((ArgParser.declared "" [.string ["-v", "--version"] "" true "1.0.0",
        .bool ["--use-color"] "" false false]).parse stdStoi stofTable
        ["prog", "--version", "--use-color"]).2 = .returned () ∧
      ((ArgParser.declared "" [.string ["-v", "--version"] "" true "1.0.0",
        .bool ["--use-color"] "" false false]).parse stdStoi stofTable
        ["prog", "--version", "--use-color"]).1.isParsed = true ∧
      (((ArgParser.declared "" [.string ["-v", "--version"] "" true "1.0.0",
        .bool ["--use-color"] "" false false]).parse stdStoi stofTable
        ["prog", "--version", "--use-color"]).1.getArgumentString "-v").2 =
        .returned "--use-color" ∧
      (((ArgParser.declared "" [.string ["-v", "--version"] "" true "1.0.0",
        .bool ["--use-color"] "" false false]).parse stdStoi stofTable
        ["prog", "--version", "--use-color"]).1.getArgumentString "--version").2 =
        .returned "--use-color" :=
  (fun h => ⟨h.1, h.2.1, h.2.2 "-v" (by decide), h.2.2 "--version" (by decide)⟩)
    (C1_round_trip_through_every_alias stdStoi stofTable
      (ArgParser.declared "" [.string ["-v", "--version"] "" true "1.0.0",
        .bool ["--use-color"] "" false false])
      (declared_fresh _ _).2.2 0
      { triggerKeys := ["-v", "--version"], description := "", stringValue := "1.0.0",
        defaultStringValue := "1.0.0", type := .STRING, value := ArgumentValue.init,
        defaultValue := ArgumentValue.init, isRequired := true, provided := false }
      "prog" "--version" "--use-color" (by rfl) (by rfl)
      (fun j b hj => absurd hj (Nat.not_lt_zero j))
      (by
        intro j b hj hb
        match j, hj, hb with
        | 1, _, hb =>
          cases hb
          rfl
        | (n + 2), _, hb => cases hb)
      (by decide))

/-- C2. Required enforcement on a freshly declared parser: after any sequence of
declarations, one `parse` call whose tokens `argv[1 ..]` contain no trigger key of some
required argument throws, and `isParsed()` is false afterwards. -/
theorem C2_required_enforced_when_fresh
    (stoi : String → Option Int) (stof : String → Option f32)
    (description : String) (declarations : List Declaration) (argv : List String)
    (r : Nat) (a : ArgumentData)
    (hr : (ArgParser.declared description declarations).arguments[r]? = some a)
    (hreq : a.isRequired = true)
    (habsent : ∀ k ∈ a.triggerKeys, k ∉ argv.drop 1) :
    (∃ e, ((ArgParser.declared description declarations).parse stoi stof argv).2 = .thrown e) ∧
      ((ArgParser.declared description declarations).parse stoi stof argv).1.isParsed = false := by
  obtain ⟨hprov, hparsed, hcons⟩ := declared_fresh description declarations
  have hnp : a.provided = false := hprov a (List.getElem?_mem hr)
  obtain ⟨h1, h2, -⟩ := parse_missing_required stoi stof _ hcons argv r a hr hreq hnp habsent
  refine ⟨h1, ?_⟩
  rw [ArgParser.isParsed, h2]
  exact hparsed

/-- Witness of C2: the parser of the test suite on `program -v 1.0.0`, where the required
`-r` is missing (`ParseWithRequiredArgumentButNotProvided`). -/
theorem C2_required_enforced_when_fresh_witness :
    (∃ e, (testParser.parse stdStoi stofTable ["program", "-v", "1.0.0"]).2 = .thrown e) ∧
      (testParser.parse stdStoi stofTable ["program", "-v", "1.0.0"]).1.isParsed = false :=
  C2_required_enforced_when_fresh stdStoi stofTable
    "This is the description of the parser" testDeclarations ["program", "-v", "1.0.0"] 2
    { triggerKeys := ["-r", "--radius"], description := "Show the radius of the program",
      stringValue := "", defaultStringValue := "", type := .F32,
      value := { i32Value := 0, f32Value := { bits := 0x3F800000 }, boolValue := false },
      defaultValue := { i32Value := 0, f32Value := { bits := 0x3F800000 }, boolValue := false },
      isRequired := true, provided := false }
    (by rfl) (by rfl) (by decide)

/-- C3, the code at the failing input, on the parser of the test suite with
`t2 = program -v 1.0.0`, which holds no trigger key of the required `-r`.  On the fresh
parser `parse(t2)` throws the missing-required error for `-r`.  After the successful parse
of the fixture `test1`, and also after the failed parse of `program -r 9.5 -t`, the same
`parse(t2)` returns without error and `isParsed()` is true: the `provided` flag set by the
earlier parse is still set. -/
theorem C3_second_parse_misses_required :
    (∀ k ∈ ["-r", "--radius"], k ∉ ["program", "-v", "1.0.0"].drop 1) ∧
      (testParser.parse stdStoi stofTable ["program", "-v", "1.0.0"]).2 =
        .thrown (.requiredNotProvided ["-r", "--radius"]) ∧
      (testParser.parse stdStoi stofTable test1Argv).2 = .returned () ∧
      ((testParser.parse stdStoi stofTable test1Argv).1.parse stdStoi stofTable
        ["program", "-v", "1.0.0"]).2 = .returned () ∧
      ((testParser.parse stdStoi stofTable test1Argv).1.parse stdStoi stofTable
        ["program", "-v", "1.0.0"]).1.isParsed = true ∧
      (testParser.parse stdStoi stofTable ["program", "-r", "9.5", "-t"]).2 =
        .thrown (.keyNotFound "-t") ∧
      ((testParser.parse stdStoi stofTable ["program", "-r", "9.5", "-t"]).1.parse
        stdStoi stofTable ["program", "-v", "1.0.0"]).2 = .returned () := by
  refine ⟨by decide, by rfl, by rfl, by rfl, by rfl, by rfl, by rfl⟩

/-- C4. Defaults for arguments not on the command line: for every parser state and every
token vector, after `parse` has returned without error, every argument none of whose
trigger keys occurs among `argv[1 ..]` keeps its declaration and has a current value
equal to its declared default. -/
theorem C4_absent_arguments_hold_default
    (stoi : String → Option Int) (stof : String → Option f32)
    (p : ArgParser) (argv : List String) (i : Nat) (a : ArgumentData)
    (_hok : (p.parse stoi stof argv).2 = .returned ())
    (hi : p.arguments[i]? = some a)
    (habsent : ∀ k ∈ a.triggerKeys, k ∉ argv.drop 1) :
    ∃ b, (p.parse stoi stof argv).1.arguments[i]? = some b ∧ b.decl = a.decl ∧
      b.currentValue = a.declaredDefault :=
  ⟨resetArgument a, parse_untouched stoi stof p argv i a hi habsent, decl_resetArgument a,
    currentValue_resetArgument a⟩

/-- Witness of C4: the parser of the test suite after the parse of
`program -v 2.0.0 -r 9.5`, parsed again on `program -r 1.0`: the record of `-v`, which
held `2.0.0`, is back at its default `1.0.0`. -/
theorem C4_absent_arguments_hold_default_witness :
    ∃ b, ((testParser.parse stdStoi stofTable ["program", "-v", "2.0.0", "-r", "9.5"]).1.parse
        stdStoi stofTable ["program", "-r", "1.0"]).1.arguments[0]? = some b ∧
      b.decl = ArgumentData.decl
        { triggerKeys := ["-v", "--version"], description := "Show the version of the program",
          stringValue := "2.0.0", defaultStringValue := "1.0.0", type := .STRING,
          value := ArgumentValue.init, defaultValue := ArgumentValue.init,
          isRequired := false, provided := true } ∧
      b.currentValue = ArgumentData.declaredDefault
        { triggerKeys := ["-v", "--version"], description := "Show the version of the program",
          stringValue := "2.0.0", defaultStringValue := "1.0.0", type := .STRING,
          value := ArgumentValue.init, defaultValue := ArgumentValue.init,
          isRequired := false, provided := true } :=
  C4_absent_arguments_hold_default stdStoi stofTable
    (testParser.parse stdStoi stofTable ["program", "-v", "2.0.0", "-r", "9.5"]).1
    ["program", "-r", "1.0"] 0
    { triggerKeys := ["-v", "--version"], description := "Show the version of the program",
      stringValue := "2.0.0", defaultStringValue := "1.0.0", type := .STRING,
      value := ArgumentValue.init, defaultValue := ArgumentValue.init,
      isRequired := false, provided := true }
    (by rfl) (by rfl) (by decide)

/-- C5. Unknown key aborts the parse: for every parser state and token vector, when the
cursor reaches a token `u` that matches no declared trigger key, `parse` throws the
key-not-found error for `u` in the state the cursor arrived in, it does not set the
parsed flag, and it examines no later token: whatever tokens follow `u`, the call ends in
the same state with the same error. -/
theorem C5_unknown_key_aborts_parse
    (stoi : String → Option Int) (stof : String → Option f32)
    (p q : ArgParser) (prog u : String) (pre post : List String)
    (hreach : CursorReaches stoi stof p.reset (pre ++ u :: post) q (u :: post))
    (hunknown : ∀ a ∈ p.arguments, u ∉ a.triggerKeys) :
    p.parse stoi stof (prog :: (pre ++ u :: post)) = (q, .thrown (.keyNotFound u)) ∧
      (p.parse stoi stof (prog :: (pre ++ u :: post))).1.m_isParsed = p.m_isParsed ∧
      ∀ post2, p.parse stoi stof (prog :: (pre ++ u :: post2)) =
        (q, .thrown (.keyNotFound u)) := by
  have hq : q.searchByKey u = NTT_ARGUMENT_INVALID_INDEX := by
    rw [searchByKey_congr p q u ((sameDeclarations_reset p).trans hreach.frame.1).1]
    exact (searchByKey_invalid_iff p u).2 hunknown
  have hall : ∀ post2, p.parse stoi stof (prog :: (pre ++ u :: post2)) =
      (q, .thrown (.keyNotFound u)) := by
    intro post2
    obtain ⟨pre2, hpre, hrun⟩ := hreach.independent u post rfl
    have hpp : pre = pre2 := List.append_cancel_right hpre
    subst hpp
    apply parse_of_loop_thrown
    show parseLoop stoi stof p.reset (pre ++ u :: post2) = _
    rw [(hrun post2).parseLoop_eq]
    exact parseLoop_thrown stoi stof q u post2 _ (parseIteration_notFound stoi stof q u post2 hq)
  refine ⟨hall post, ?_, hall⟩
  rw [hall post]
  exact hreach.frame.2

/-- Witness of C5: the parser of the test suite on `program -v 2.0.0 -t 5`; the cursor
reaches the undeclared `-t` after the value of `-v` has been stored. -/
theorem C5_unknown_key_aborts_parse_witness :
    testParser.parse stdStoi stofTable ("program" :: (["-v", "2.0.0"] ++ "-t" :: ["5"])) =
        (testParser.reset.setArgument 0
          { triggerKeys := ["-v", "--version"], description := "Show the version of the program",
            stringValue := "2.0.0", defaultStringValue := "1.0.0", type := .STRING,
            value := ArgumentValue.init, defaultValue := ArgumentValue.init,
            isRequired := false, provided := true },
         .thrown (.keyNotFound "-t")) ∧
      (testParser.parse stdStoi stofTable
        ("program" :: (["-v", "2.0.0"] ++ "-t" :: ["5"]))).1.m_isParsed = testParser.m_isParsed ∧
      ∀ post2, testParser.parse stdStoi stofTable
          ("program" :: (["-v", "2.0.0"] ++ "-t" :: post2)) =
        (testParser.reset.setArgument 0
          { triggerKeys := ["-v", "--version"], description := "Show the version of the program",
            stringValue := "2.0.0", defaultStringValue := "1.0.0", type := .STRING,
            value := ArgumentValue.init, defaultValue := ArgumentValue.init,
            isRequired := false, provided := true },
         .thrown (.keyNotFound "-t")) :=
  C5_unknown_key_aborts_parse stdStoi stofTable testParser _ "program" "-t"
    ["-v", "2.0.0"] ["5"]
    (CursorReaches.advance2 _ _ _ "-v" ["2.0.0", "-t", "5"] _ (by rfl)
      (CursorReaches.start _ _ _ _))
    (by decide)

/-- C7. Permissive numeric fallback: in every parser state (its required-index list
agreeing with the `isRequired` flags, as in every reachable state), for every INT32
argument that key `k` resolves to, with declared default `d` (required or not), and every
value token `s` on which the integer conversion fails, `parse([prog, k, s])` with no other
required argument succeeds, `isParsed()` is true, the argument is marked provided, and
`getArgument<i32>(k)` returns `d`. -/
theorem C7_permissive_numeric_fallback
    (stoi : String → Option Int) (stof : String → Option f32)
    (p : ArgParser) (hcons : p.Consistent) (idx : Nat) (a : ArgumentData) (prog k s : String)
    (hk : p.searchByKey k = (idx : Int)) (ha : p.arguments[idx]? = some a)
    (hty : a.type = .I32) (hfail : stoi s = none)
    (hreq : ∀ j b, j ≠ idx → p.arguments[j]? = some b → b.isRequired = false) :
    (p.parse stoi stof [prog, k, s]).2 = .returned () ∧
      (p.parse stoi stof [prog, k, s]).1.isParsed = true ∧
      (∃ b, (p.parse stoi stof [prog, k, s]).1.arguments[idx]? = some b ∧ b.provided = true) ∧
      ((p.parse stoi stof [prog, k, s]).1.getArgumentI32 k).2 =
        .returned a.defaultValue.i32Value := by
  obtain ⟨a2, hf⟩ := firstMatch_of_searchByKey p k idx hk
  have ha2 : a2 = a := Option.some.inj (hf.1.symm.trans ha)
  subst ha2
  have hfr := firstMatch_reset p k idx a2 hf
  have hrty : (resetArgument a2).type = .I32 := by
    rw [type_of_decl_eq a2 _ (decl_resetArgument a2)]
    exact hty
  have hdef : (resetArgument a2).defaultValue = a2.defaultValue :=
    congrArg ArgumentDecl.defaultValue (decl_resetArgument a2)
  have hit := parseIteration_i32 stoi stof p.reset k s [] idx (resetArgument a2) hfr hrty
  have hp := parse_single stoi stof p hcons prog k s idx a2 _ hf hreq hit rfl
  have hget := getElem?_setArgument_eq p.reset idx (resetArgument a2)
    { resetArgument a2 with
      value := { (resetArgument a2).value with
                 i32Value := safeStoi stoi s (resetArgument a2).defaultValue.i32Value }
      provided := true } hfr.1
  rw [hp]
  refine ⟨rfl, rfl, ⟨_, hget, rfl⟩, ?_⟩
  have hset := sameDeclarations_setArgument p.reset idx (resetArgument a2)
    { resetArgument a2 with
      value := { (resetArgument a2).value with
                 i32Value := safeStoi stoi s (resetArgument a2).defaultValue.i32Value }
      provided := true } hfr.1 rfl
  have hdecl := ((sameDeclarations_reset p).trans hset).1
  obtain ⟨b, hb, -⟩ := firstMatch_congr p
    { (p.reset.setArgument idx
        { resetArgument a2 with
          value := { (resetArgument a2).value with
                     i32Value := safeStoi stoi s (resetArgument a2).defaultValue.i32Value }
          provided := true }) with m_isParsed := true } hdecl k idx a2 hf
  have hbe : b = { resetArgument a2 with
      value := { (resetArgument a2).value with
                 i32Value := safeStoi stoi s (resetArgument a2).defaultValue.i32Value }
      provided := true } := Option.some.inj (hb.1.symm.trans hget)
  unfold ArgParser.getArgumentI32
  rw [getValue_found _ _ _ _ k idx b hb, hbe]
  simp [hrty, safeStoi, hfail, hdef]

/-- Witness of C7: the required INT32 argument `-c` with default `7`, parsed on
`prog -c NotANumber` (the tokens of `InputInvalidArgumentType`). -/
theorem C7_permissive_numeric_fallback_witness :
    ((ArgParser.declared "" [.i32 ["-c", "--col"] "" true 7]).parse stdStoi stofTable
        ["prog", "-c", "NotANumber"]).2 = .returned () ∧
      ((ArgParser.declared "" [.i32 ["-c", "--col"] "" true 7]).parse stdStoi stofTable
        ["prog", "-c", "NotANumber"]).1.isParsed = true ∧
      (∃ b, ((ArgParser.declared "" [.i32 ["-c", "--col"] "" true 7]).parse stdStoi
        stofTable ["prog", "-c", "NotANumber"]).1.arguments[0]? = some b ∧
        b.provided = true) ∧
      (((ArgParser.declared "" [.i32 ["-c", "--col"] "" true 7]).parse stdStoi stofTable
        ["prog", "-c", "NotANumber"]).1.getArgumentI32 "-c").2 = .returned 7 :=
  C7_permissive_numeric_fallback stdStoi stofTable
    (ArgParser.declared "" [.i32 ["-c", "--col"] "" true 7]) (declared_fresh _ _).2.2 0
    { triggerKeys := ["-c", "--col"], description := "", stringValue := "",
      defaultStringValue := "", type := .I32,
      value := { i32Value := 7, f32Value := { bits := 0 }, boolValue := false },
      defaultValue := { i32Value := 7, f32Value := { bits := 0 }, boolValue := false },
      isRequired := true, provided := false }
    "prog" "-c" "NotANumber" (by rfl) (by rfl) (by rfl) (by rfl)
    (by
      intro j b hj hb
      match j, hj, hb with
      | (n + 1), _, hb => cases hb)

/-- C8. Type mismatch: in every parser state, for every key that resolves to a declared
argument, `getArgument<T>(key)` returns the stored value for the one `T` that corresponds
to the kind of the argument and throws the type-mismatch error for each of the three
other supported types. -/
theorem C8_type_mismatch (p : ArgParser) (key : String) (idx : Nat)
    (hk : p.searchByKey key = (idx : Int)) :
    ∃ a, p.arguments[idx]? = some a ∧
      (p.getArgumentString key).2 =
        (if a.type = .STRING then .returned a.stringValue
         else .thrown (.keyIsNotA "String" a.triggerKeys)) ∧
      (p.getArgumentI32 key).2 =
        (if a.type = .I32 then .returned a.value.i32Value
         else .thrown (.keyIsNotA "i32" a.triggerKeys)) ∧
      (p.getArgumentF32 key).2 =
        (if a.type = .F32 then .returned a.value.f32Value
         else .thrown (.keyIsNotA "f32" a.triggerKeys)) ∧
      (p.getArgumentBool key).2 =
        (if a.type = .BOOL then .returned a.value.boolValue
         else .thrown (.keyIsNotA "bool" a.triggerKeys)) := by
  obtain ⟨a, hf⟩ := firstMatch_of_searchByKey p key idx hk
  refine ⟨a, hf.1, ?_, ?_, ?_, ?_⟩
  · unfold ArgParser.getArgumentString
    rw [getValue_found _ _ _ _ key idx a hf]
    by_cases h : a.type = .STRING <;> simp [h]
  · unfold ArgParser.getArgumentI32
    rw [getValue_found _ _ _ _ key idx a hf]
    by_cases h : a.type = .I32 <;> simp [h]
  · unfold ArgParser.getArgumentF32
    rw [getValue_found _ _ _ _ key idx a hf]
    by_cases h : a.type = .F32 <;> simp [h]
  · unfold ArgParser.getArgumentBool
    rw [getValue_found _ _ _ _ key idx a hf]
    by_cases h : a.type = .BOOL <;> simp [h]

/-- Witness of C8: the key `--col` of the test suite after a failed parse; only
`getArgument<i32>` returns. -/
theorem C8_type_mismatch_witness :
    ∃ a, (testParser.parse stdStoi stofTable ["program", "-c", "8"]).1.arguments[1]? =
        some a ∧
      ((testParser.parse stdStoi stofTable ["program", "-c", "8"]).1.getArgumentString
          "--col").2 =
        (if a.type = .STRING then .returned a.stringValue
         else .thrown (.keyIsNotA "String" a.triggerKeys)) ∧
      ((testParser.parse stdStoi stofTable ["program", "-c", "8"]).1.getArgumentI32
          "--col").2 =
        (if a.type = .I32 then .returned a.value.i32Value
         else .thrown (.keyIsNotA "i32" a.triggerKeys)) ∧
      ((testParser.parse stdStoi stofTable ["program", "-c", "8"]).1.getArgumentF32
          "--col").2 =
        (if a.type = .F32 then .returned a.value.f32Value
         else .thrown (.keyIsNotA "f32" a.triggerKeys)) ∧
      ((testParser.parse stdStoi stofTable ["program", "-c", "8"]).1.getArgumentBool
          "--col").2 =
        (if a.type = .BOOL then .returned a.value.boolValue
         else .thrown (.keyIsNotA "bool" a.triggerKeys)) :=
  C8_type_mismatch (testParser.parse stdStoi stofTable ["program", "-c", "8"]).1
    "--col" 1 (by rfl)

/-- C9. Unknown key on lookup: in every parser state, for every key and every supported
type `T`, `getArgument<T>(key)` throws the key-not-found error if and only if `key` is not
a trigger key of any declared argument, and the call leaves the parser state unchanged. -/
theorem C9_unknown_key_on_lookup (p : ArgParser) (key : String) :
    (((p.getArgumentString key).2 = .thrown (.keyNotFound key) ↔
        ∀ a ∈ p.arguments, key ∉ a.triggerKeys) ∧
      ((p.getArgumentI32 key).2 = .thrown (.keyNotFound key) ↔
        ∀ a ∈ p.arguments, key ∉ a.triggerKeys) ∧
      ((p.getArgumentF32 key).2 = .thrown (.keyNotFound key) ↔
        ∀ a ∈ p.arguments, key ∉ a.triggerKeys) ∧
      ((p.getArgumentBool key).2 = .thrown (.keyNotFound key) ↔
        ∀ a ∈ p.arguments, key ∉ a.triggerKeys)) ∧
    (p.getArgumentString key).1 = p ∧ (p.getArgumentI32 key).1 = p ∧
      (p.getArgumentF32 key).1 = p ∧ (p.getArgumentBool key).1 = p :=
  ⟨⟨getValue_keyNotFound_iff _ _ _ p key, getValue_keyNotFound_iff _ _ _ p key,
      getValue_keyNotFound_iff _ _ _ p key, getValue_keyNotFound_iff _ _ _ p key⟩,
    getValue_state _ _ _ p key, getValue_state _ _ _ p key, getValue_state _ _ _ p key,
    getValue_state _ _ _ p key⟩

/-- C10. Bare boolean flag at the end: for every parser and token vector whose last token
`k` is examined as a key and resolves to a BOOL argument, the token loop sets the value of
that argument to true, whatever its declared default, marks it provided and returns; the
call of `parse` keeps that record and throws no missing-value error. -/
theorem C10_bare_boolean_flag_at_the_end
    (stoi : String → Option Int) (stof : String → Option f32)
    (p q : ArgParser) (prog k : String) (pre : List String) (idx : Nat) (a : ArgumentData)
    (hreach : CursorReaches stoi stof p.reset (pre ++ [k]) q [k])
    (hk : q.searchByKey k = (idx : Int)) (ha : q.arguments[idx]? = some a)
    (hty : a.type = .BOOL) :
    parseLoop stoi stof p.reset (pre ++ [k]) =
        (q.setArgument idx
          { a with value := { a.value with boolValue := true }, provided := true },
         .returned ()) ∧
      (p.parse stoi stof (prog :: (pre ++ [k]))).1.arguments[idx]? =
        some { a with value := { a.value with boolValue := true }, provided := true } ∧
      ∀ type keys, (p.parse stoi stof (prog :: (pre ++ [k]))).2 ≠
        .thrown (.notFollowedByValue type keys) := by
  obtain ⟨a2, hf⟩ := firstMatch_of_searchByKey q k idx hk
  have ha2 : a2 = a := Option.some.inj (hf.1.symm.trans ha)
  subst ha2
  have hL : parseLoop stoi stof p.reset ((prog :: (pre ++ [k])).drop 1) =
      (q.setArgument idx
        { a2 with value := { a2.value with boolValue := true }, provided := true },
       .returned ()) := by
    show parseLoop stoi stof p.reset (pre ++ [k]) = _
    rw [hreach.parseLoop_eq,
      parseLoop_advance1 stoi stof q _ k [] (parseIteration_bool_last stoi stof q k idx a2 hf hty)]
    exact parseLoop_nil stoi stof _
  refine ⟨hL, ?_, ?_⟩
  · rw [(parse_arguments stoi stof p (prog :: (pre ++ [k]))).1, hL]
    exact getElem?_setArgument_eq q idx a2 _ ha
  · intro type keys
    rw [parse_of_loop_returned stoi stof p _ _ hL]
    rcases checkRequired_result
      (q.setArgument idx
        { a2 with value := { a2.value with boolValue := true }, provided := true })
      (q.setArgument idx
        { a2 with value := { a2.value with boolValue := true }, provided := true }
        ).requiredArgumentIndexes with h | h | ⟨keys2, h⟩ <;>
      rw [h] <;> simp

/-- Witness of C10: the parser of the test suite on the tokens of the test suite,
`program -v 1.0.0 --col 8 -r 9.5 --use-color`, with the flag written last. -/
theorem C10_bare_boolean_flag_at_the_end_witness :
    (testParser.parse stdStoi stofTable
        ("program" :: (["-v", "1.0.0", "--col", "8", "-r", "9.5"] ++ ["--use-color"]))
      ).1.arguments[3]? =
      some
        { triggerKeys := ["--use-color"], description := "Show the color of the program",
          stringValue := "", defaultStringValue := "", type := .BOOL,
          value := { i32Value := 0, f32Value := { bits := 0 }, boolValue := true },
          defaultValue := ArgumentValue.init, isRequired := false, provided := true } :=
  (C10_bare_boolean_flag_at_the_end stdStoi stofTable testParser _ "program"
    "--use-color" ["-v", "1.0.0", "--col", "8", "-r", "9.5"] 3
    { triggerKeys := ["--use-color"], description := "Show the color of the program",
      stringValue := "", defaultStringValue := "", type := .BOOL,
      value := ArgumentValue.init, defaultValue := ArgumentValue.init,
      isRequired := false, provided := false }
    (CursorReaches.advance2 _ _ _ "-v" ["1.0.0", "--col", "8", "-r", "9.5", "--use-color"] _
      (by rfl)
      (CursorReaches.advance2 _ _ _ "--col" ["8", "-r", "9.5", "--use-color"] _ (by rfl)
        (CursorReaches.advance2 _ _ _ "-r" ["9.5", "--use-color"] _ (by rfl)
          (CursorReaches.start _ _ _ _))))
    (by rfl) (by rfl) (by rfl)).2.1

/-- Counterexample to C11 as stated: one BOOL flag with the two keys `-u` and
`--use-color`, default false, parsed on `prog --use-color true -u foo`.  The key `-u`
occurs once and is examined as a key at position 3, followed by `foo`, which is neither
`true` nor `false` and not a declared key; the parse fails with the key-not-found error
for `foo`, but the flag, set through its other key before, is marked provided and holds
true, not its default. -/
theorem C11_counterexample :
    ["prog", "--use-color", "true", "-u", "foo"].count "-u" = 1 ∧
    (ArgParser.declared "" [.bool ["-u", "--use-color"] "" false false]).searchByKey "-u" = 0 ∧
    CursorReaches stdStoi stofTable
      (ArgParser.declared "" [.bool ["-u", "--use-color"] "" false false]).reset
      ["--use-color", "true", "-u", "foo"]
      ((ArgParser.declared "" [.bool ["-u", "--use-color"] "" false false]).reset.setArgument 0
        { triggerKeys := ["-u", "--use-color"], description := "", stringValue := "",
          defaultStringValue := "", type := .BOOL,
          value := { i32Value := 0, f32Value := { bits := 0 }, boolValue := true },
          defaultValue := ArgumentValue.init, isRequired := false, provided := true })
      ["-u", "foo"] ∧
    (ArgParser.declared "" [.bool ["-u", "--use-color"] "" false false]).parse
        stdStoi stofTable ["prog", "--use-color", "true", "-u", "foo"] =
      ((ArgParser.declared "" [.bool ["-u", "--use-color"] "" false false]).reset.setArgument 0
        { triggerKeys := ["-u", "--use-color"], description := "", stringValue := "",
          defaultStringValue := "", type := .BOOL,
          value := { i32Value := 0, f32Value := { bits := 0 }, boolValue := true },
          defaultValue := ArgumentValue.init, isRequired := false, provided := true },
       .thrown (.keyNotFound "foo")) := by
  refine ⟨by decide, by rfl, by decide, by rfl⟩

/-- C11, amended. For every freshly declared parser and token vector in which a key `b`
that resolves to a BOOL argument is examined as a key at a position followed by a token
`next` that is neither `true` nor `false`, and in which no trigger key of that argument
occurs at any other position: `next` is then examined as a key itself in the same state,
the BOOL argument ends not marked provided with its value at its declared default, and
the parse fails with the key-not-found error for `next` when `next` is not a declared
trigger key. -/
theorem C11_boolean_flag_before_non_literal
    (stoi : String → Option Int) (stof : String → Option f32)
    (description : String) (declarations : List Declaration)
    (q : ArgParser) (prog b next : String) (pre post : List String)
    (idx : Nat) (a : ArgumentData)
    (hreach : CursorReaches stoi stof (ArgParser.declared description declarations).reset
      (pre ++ b :: next :: post) q (b :: next :: post))
    (hb : (ArgParser.declared description declarations).searchByKey b = (idx : Int))
    (ha : (ArgParser.declared description declarations).arguments[idx]? = some a)
    (hty : a.type = .BOOL)
    (hlit : next ≠ "true" ∧ next ≠ "false")
    (honce : ∀ k ∈ a.triggerKeys, k ∉ pre ∧ k ∉ next :: post) :
    CursorReaches stoi stof (ArgParser.declared description declarations).reset
        (pre ++ b :: next :: post) q (next :: post) ∧
      (∃ c, ((ArgParser.declared description declarations).parse stoi stof
          (prog :: (pre ++ b :: next :: post))).1.arguments[idx]? = some c ∧
        c.provided = false ∧ c.currentValue = a.declaredDefault) ∧
      ((∀ d ∈ (ArgParser.declared description declarations).arguments, next ∉ d.triggerKeys) →
        (ArgParser.declared description declarations).parse stoi stof
          (prog :: (pre ++ b :: next :: post)) = (q, .thrown (.keyNotFound next))) := by
  obtain ⟨hprov, -, -⟩ := declared_fresh description declarations
  obtain ⟨a2, hf⟩ := firstMatch_of_searchByKey _ b idx hb
  have ha2 : a2 = a := Option.some.inj (hf.1.symm.trans ha)
  subst ha2
  have hdecl := ((sameDeclarations_reset
    (ArgParser.declared description declarations)).trans hreach.frame.1).1
  obtain ⟨aq, hfq, haq⟩ := firstMatch_congr _ q hdecl b idx a2 hf
  have hlit2 : ¬ (next = "true" ∨ next = "false") := fun hc => hc.elim hlit.1 hlit.2
  have hit := parseIteration_bool_other stoi stof q b next post idx aq hfq
    ((type_of_decl_eq a2 aq haq).trans hty) hlit2
  have hstep := cursorReaches_step1 hreach b (next :: post) q rfl hit
  have hloop : parseLoop stoi stof (ArgParser.declared description declarations).reset
      (pre ++ b :: next :: post) = parseLoop stoi stof q (next :: post) := hstep.parseLoop_eq
  refine ⟨hstep, ?_, ?_⟩
  · obtain ⟨pre2, hpre, hun⟩ := cursorReaches_untouched hreach
    have hpp : pre2 = pre := (List.append_cancel_right hpre).symm
    subst hpp
    have hkeys : (resetArgument a2).triggerKeys = a2.triggerKeys :=
      triggerKeys_of_decl_eq a2 _ (decl_resetArgument a2)
    have hq : q.arguments[idx]? = some (resetArgument a2) := by
      apply hun idx (resetArgument a2)
      · rw [getElem?_reset, hf.1]
        rfl
      · intro k hk
        rw [hkeys] at hk
        exact (honce k hk).1
    have hend : (parseLoop stoi stof q (next :: post)).1.arguments[idx]? =
        some (resetArgument a2) := by
      apply parseLoop_untouched stoi stof idx (resetArgument a2) q (next :: post) hq
      intro k hk
      rw [hkeys] at hk
      exact (honce k hk).2
    refine ⟨resetArgument a2, ?_, ?_, currentValue_resetArgument a2⟩
    · rw [(parse_arguments stoi stof _ (prog :: (pre2 ++ b :: next :: post))).1]
      show (parseLoop stoi stof (ArgParser.declared description declarations).reset
        (pre2 ++ b :: next :: post)).1.arguments[idx]? = _
      rw [hloop]
      exact hend
    · rw [provided_resetArgument]
      exact hprov a2 (List.getElem?_mem hf.1)
  · intro hunknown
    have hqs : q.searchByKey next = NTT_ARGUMENT_INVALID_INDEX := by
      rw [searchByKey_congr _ q next hdecl]
      exact (searchByKey_invalid_iff _ next).2 hunknown
    apply parse_of_loop_thrown
    show parseLoop stoi stof (ArgParser.declared description declarations).reset
      (pre ++ b :: next :: post) = _
    rw [hloop]
    exact parseLoop_thrown stoi stof q next post _
      (parseIteration_notFound stoi stof q next post hqs)

/-- Witness of C11 (amended): the parser of the test suite on `program --use-color foo`. -/
theorem C11_boolean_flag_before_non_literal_witness :
    CursorReaches stdStoi stofTable testParser.reset ([] ++ "--use-color" :: "foo" :: [])
        testParser.reset ("foo" :: []) ∧
      (∃ c, (testParser.parse stdStoi stofTable
          ("program" :: ([] ++ "--use-color" :: "foo" :: []))).1.arguments[3]? = some c ∧
        c.provided = false ∧
        c.currentValue = ArgumentData.declaredDefault
          { triggerKeys := ["--use-color"], description := "Show the color of the program",
            stringValue := "", defaultStringValue := "", type := .BOOL,
            value := ArgumentValue.init, defaultValue := ArgumentValue.init,
            isRequired := false, provided := false }) ∧
      ((∀ d ∈ testParser.arguments, "foo" ∉ d.triggerKeys) →
        testParser.parse stdStoi stofTable
          ("program" :: ([] ++ "--use-color" :: "foo" :: [])) =
          (testParser.reset, .thrown (.keyNotFound "foo"))) :=
  C11_boolean_flag_before_non_literal stdStoi stofTable
    "This is the description of the parser" testDeclarations testParser.reset
    "program" "--use-color" "foo" [] [] 3
    { triggerKeys := ["--use-color"], description := "Show the color of the program",
      stringValue := "", defaultStringValue := "", type := .BOOL,
      value := ArgumentValue.init, defaultValue := ArgumentValue.init,
      isRequired := false, provided := false }
    (CursorReaches.start _ _ _ _) (by rfl) (by rfl) (by rfl) (by decide) (by decide)

/-- C12, the code at the failing input: on the parser of the test suite the parse of the
fixture `test1` succeeds and sets the parsed flag; the next parse, `program -t`, throws the
key-not-found error, and `isParsed()` still returns true afterwards. -/
theorem C12_failed_parse_keeps_parsed_flag :
    (testParser.parse stdStoi stofTable test1Argv).2 = .returned () ∧
      ((testParser.parse stdStoi stofTable test1Argv).1.parse stdStoi stofTable
        ["program", "-t"]).2 = .thrown (.keyNotFound "-t") ∧
      ((testParser.parse stdStoi stofTable test1Argv).1.parse stdStoi stofTable
        ["program", "-t"]).1.isParsed = true := by
  refine ⟨by rfl, by rfl, by rfl⟩

/-- C13. Well-formed input is accepted: for every freshly declared parser and every token
vector `prog, k1, v1, ..., kn, vn` in which each `ki` resolves to a declared argument, each
`vi` is `true` or `false` when `ki` resolves to a BOOL argument (and any string otherwise),
and every required argument is the resolution of some `ki`, `parse` returns without error
and `isParsed()` is true afterwards. -/
theorem C13_well_formed_input_is_accepted
    (stoi : String → Option Int) (stof : String → Option f32)
    (description : String) (declarations : List Declaration) (prog : String)
    (pairs : List (String × String))
    (hkeys : ∀ kv ∈ pairs, ∃ (n : Nat) (a : ArgumentData),
      (ArgParser.declared description declarations).searchByKey kv.1 = (n : Int) ∧
      (ArgParser.declared description declarations).arguments[n]? = some a ∧
      (a.type = .BOOL → kv.2 = "true" ∨ kv.2 = "false"))
    (hreq : ∀ (r : Nat) (a : ArgumentData),
      (ArgParser.declared description declarations).arguments[r]? = some a →
      a.isRequired = true →
      ∃ kv ∈ pairs, (ArgParser.declared description declarations).searchByKey kv.1 = (r : Int)) :
    ((ArgParser.declared description declarations).parse stoi stof
        (prog :: pairTokens pairs)).2 = .returned () ∧
      ((ArgParser.declared description declarations).parse stoi stof
        (prog :: pairTokens pairs)).1.isParsed = true :=
  parse_pairs stoi stof _ (declared_fresh description declarations).2.2 prog pairs hkeys hreq

/-- Witness of C13: the parser of the test suite on
`program --radius 9.5 --use-color false -c Testing`. -/
theorem C13_well_formed_input_is_accepted_witness :
    (testParser.parse stdStoi stofTable
        ("program" :: pairTokens
          [("--radius", "9.5"), ("--use-color", "false"), ("-c", "Testing")])).2 =
        .returned () ∧
      (testParser.parse stdStoi stofTable
        ("program" :: pairTokens
          [("--radius", "9.5"), ("--use-color", "false"), ("-c", "Testing")])).1.isParsed =
        true :=
  C13_well_formed_input_is_accepted stdStoi stofTable
    "This is the description of the parser" testDeclarations "program"
    [("--radius", "9.5"), ("--use-color", "false"), ("-c", "Testing")]
    (by
      intro kv hkv
      simp only [List.mem_cons, List.mem_singleton, List.not_mem_nil, or_false] at hkv
      rcases hkv with rfl | rfl | rfl
      · exact ⟨2, _, by rfl, by rfl, by decide⟩
      · exact ⟨3, _, by rfl, by rfl, by decide⟩
      · exact ⟨1, _, by rfl, by rfl, by decide⟩)
    (by
      intro r a hr hreq
      match r, hr with
      | 0, hr =>
        cases hr
        cases hreq
      | 1, hr =>
        cases hr
        cases hreq
      | 2, _ => exact ⟨("--radius", "9.5"), by decide, by rfl⟩
      | 3, hr =>
        cases hr
        cases hreq
      | (n + 4), hr => cases hr)

/-- C14, the code at the failing input: on the parser of the test suite, after the
successful parse of the fixture `test1`, `reset()` leaves the parsed flag set and
`isParsed()` returns true. -/
theorem C14_reset_keeps_parsed_flag :
    (testParser.parse stdStoi stofTable test1Argv).2 = .returned () ∧
      (testParser.parse stdStoi stofTable test1Argv).1.reset.isParsed = true := by
  refine ⟨by rfl, by rfl⟩

/-- C15. The method `reset` restores values: for every parser state the public operations
can produce and every declared argument, immediately after `reset()` the current value of
the argument (the member selected by its kind) equals the default value given at its
declaration, and `getArgument` of the declared type returns that default for every trigger
key that resolves to it. -/
theorem C15_reset_restores_values
    (stoi : String → Option Int) (stof : String → Option f32)
    (ds : List Declaration) (p : ArgParser) (hp : DeclaredBy stoi stof ds p)
    (i : Nat) (d : Declaration) (hd : ds[i]? = some d) :
    ∃ b, p.reset.arguments[i]? = some b ∧ b.decl = d.decl ∧
      b.currentValue = d.typedDefault ∧
      ∀ key, p.reset.searchByKey key = (i : Int) →
        match d with
        | .string _ _ _ defaultValue =>
          (p.reset.getArgumentString key).2 = .returned defaultValue
        | .i32 _ _ _ defaultValue => (p.reset.getArgumentI32 key).2 = .returned defaultValue
        | .f32 _ _ _ defaultValue => (p.reset.getArgumentF32 key).2 = .returned defaultValue
        | .bool _ _ _ defaultValue =>
          (p.reset.getArgumentBool key).2 = .returned defaultValue := by
  obtain ⟨a, ha, had⟩ := declaredBy_record hp i d hd
  obtain ⟨b, hb, hbd, hbv, hget⟩ := reset_restores_stored_default p i a ha
  refine ⟨b, hb, hbd.trans had, ?_, ?_⟩
  · rw [hbv, declaredDefault_of_decl a d had]
  · intro key hkey
    obtain ⟨h1, h2, h3, h4⟩ := hget key hkey
    cases d with
    | string keys description isRequired defaultValue =>
      have hty : a.type = .STRING := congrArg ArgumentDecl.type had
      have hv : a.defaultStringValue = defaultValue :=
        congrArg ArgumentDecl.defaultStringValue had
      simp only
      rw [h1 hty, hv]
    | i32 keys description isRequired defaultValue =>
      have hty : a.type = .I32 := congrArg ArgumentDecl.type had
      have hv : a.defaultValue.i32Value = defaultValue :=
        congrArg (fun x => x.defaultValue.i32Value) had
      simp only
      rw [h2 hty, hv]
    | f32 keys description isRequired defaultValue =>
      have hty : a.type = .F32 := congrArg ArgumentDecl.type had
      have hv : a.defaultValue.f32Value = defaultValue :=
        congrArg (fun x => x.defaultValue.f32Value) had
      simp only
      rw [h3 hty, hv]
    | bool keys description isRequired defaultValue =>
      have hty : a.type = .BOOL := congrArg ArgumentDecl.type had
      have hv : a.defaultValue.boolValue = defaultValue :=
        congrArg (fun x => x.defaultValue.boolValue) had
      simp only
      rw [h4 hty, hv]

/-- Witness of C15: the parser of the test suite after the parse of the fixture `test1`,
where `--col` holds 8: after `reset()` it holds 0 again, the default of its declaration. -/
theorem C15_reset_restores_values_witness :
    ∃ b, (testParser.parse stdStoi stofTable test1Argv).1.reset.arguments[1]? = some b ∧
      b.currentValue = .i32 0 ∧
      ((testParser.parse stdStoi stofTable test1Argv).1.reset.getArgumentI32 "--col").2 =
        .returned 0 :=
  (fun h => h.elim (fun b hb => ⟨b, hb.1, hb.2.2.1, hb.2.2.2 "--col" (by rfl)⟩))
    (C15_reset_restores_values stdStoi stofTable testDeclarations
      (testParser.parse stdStoi stofTable test1Argv).1
      (DeclaredBy.parse _ _ _
        (declaredBy_declared stdStoi stofTable "This is the description of the parser"
          testDeclarations))
      1 (.i32 ["-c", "--col"] "Show the color of the program" false 0) (by rfl))

/-- C16, the code at the failing input: on the parser of the test suite, after the parse
of the fixture `test1` has marked all four arguments provided, `reset()` leaves all four
`provided` flags true; the parse of `program` alone that follows then returns without
error although the required `-r` is not among its tokens. -/
theorem C16_reset_keeps_provided :
    (testParser.parse stdStoi stofTable test1Argv).1.reset.arguments.map
        (fun argument => argument.provided) = [true, true, true, true] ∧
      ((testParser.parse stdStoi stofTable test1Argv).1.reset.parse stdStoi stofTable
        ["program"]).2 = .returned () := by
  refine ⟨by rfl, by rfl⟩

/-- C17, the code at the failing input: the declaration of the test `AddExampleArgument`
made twice on a new parser.  The second call, whose keys are both already declared,
appends a second record; `addArgument` has no path on which it throws. -/
theorem C17_duplicate_keys_are_accepted :
    (((ArgParser.create "This is the description of the parser").addArgumentString
        ["-v", "--version"] "Show the version of the program" false "").addArgumentString
        ["-v", "--version"] "Show the version of the program" false "").arguments.map
        (fun argument => argument.triggerKeys) =
      [["-v", "--version"], ["-v", "--version"]] := by
  rfl

/-- C18. Lookup is first match: for every registry and every key, `searchByKey(key)`
returns the sentinel `-1` exactly when no declared argument has `key` among its trigger
keys, and otherwise returns the smallest index `n` such that `key` is a trigger key of
`arguments[n]`, which is less than the number of declared arguments. -/
theorem C18_lookup_is_first_match (p : ArgParser) (key : String) :
    (p.searchByKey key = NTT_ARGUMENT_INVALID_INDEX ↔
        ∀ a ∈ p.arguments, key ∉ a.triggerKeys) ∧
      (p.searchByKey key = NTT_ARGUMENT_INVALID_INDEX ∨
        ∃ (n : Nat) (a : ArgumentData), p.searchByKey key = (n : Int) ∧
          n < p.arguments.length ∧ p.arguments[n]? = some a ∧ key ∈ a.triggerKeys ∧
          ∀ (m : Nat) (b : ArgumentData), m < n → p.arguments[m]? = some b →
            key ∉ b.triggerKeys) := by
  refine ⟨searchByKey_invalid_iff p key, ?_⟩
  rcases searchByKey_cases p key with h | ⟨n, a, hf, hs⟩
  · exact Or.inl h
  · refine Or.inr ⟨n, a, hs, ?_, hf.1, hf.2.1, hf.2.2⟩
    rcases Nat.lt_or_ge n p.arguments.length with hn | hn
    · exact hn
    · have h1 := hf.1
      rw [List.getElem?_eq_none hn] at h1
      cases h1

/-- C19. The program name is skipped: for every parser state and every two token vectors
of equal length that agree at every index but 0, `parse` has the same outcome: the same
result (return or the same error) and the same parser state (values, provided flags,
parsed flag). -/
theorem C19_program_name_is_skipped
    (stoi : String → Option Int) (stof : String → Option f32)
    (p : ArgParser) (argv1 argv2 : List String)
    (_hlen : argv1.length = argv2.length)
    (hsame : ∀ i, 1 ≤ i → argv1[i]? = argv2[i]?) :
    p.parse stoi stof argv1 = p.parse stoi stof argv2 := by
  have hdrop : argv1.drop 1 = argv2.drop 1 := by
    apply List.ext_getElem?
    intro i
    rw [List.getElem?_drop, List.getElem?_drop]
    exact hsame (1 + i) (Nat.le_add_right 1 i)
  unfold ArgParser.parse
  rw [hdrop]

/-- Witness of C19: the parser of the test suite on `-v 2.0.0 -r 9.5` after a program name
that is the declared key `-c`, and after one that is the undeclared `zzz`. -/
theorem C19_program_name_is_skipped_witness :
    testParser.parse stdStoi stofTable ["-c", "-v", "2.0.0", "-r", "9.5"] =
      testParser.parse stdStoi stofTable ["zzz", "-v", "2.0.0", "-r", "9.5"] :=
  C19_program_name_is_skipped stdStoi stofTable testParser
    ["-c", "-v", "2.0.0", "-r", "9.5"] ["zzz", "-v", "2.0.0", "-r", "9.5"] (by rfl)
    (by
      intro i hi
      match i, hi with
      | (n + 1), _ => rfl)

/-- Counterexample to C20 as stated: a STRING argument and an INT32 argument declared in
this order with the same key `-k`.  Lookup of `-k` returns index 0, the earlier-declared
argument; `getArgument<String>` on `-k` returns its value; the parse of `prog -k x` writes
`x` into it and leaves the later-declared argument as it was. -/
theorem C20_counterexample :
    (ArgParser.declared "" [.string ["-k"] "" false "a", .i32 ["-k"] "" false 0]).searchByKey
        "-k" = 0 ∧
      ((ArgParser.declared "" [.string ["-k"] "" false "a", .i32 ["-k"] "" false 0]
        ).getArgumentString "-k").2 = .returned "a" ∧
      ((ArgParser.declared "" [.string ["-k"] "" false "a", .i32 ["-k"] "" false 0]).parse
        stdStoi stofTable ["prog", "-k", "x"]).1.arguments.map
        (fun argument => (argument.stringValue, argument.provided)) =
        [("x", true), ("", false)] := by
  refine ⟨by rfl, by rfl, by rfl⟩

/-- C20, amended. For every registry in which two arguments declared at indices `i < j`
share a trigger key `k`, it is the later-declared argument, index `j`, that is unreachable
via `k`: lookup of `k` returns an index `n ≤ i`, never `j`; an iteration of the parse loop
at a token `k` leaves record `j` as it was; and `getArgument(k)` answers from record `n`. -/
theorem C20_later_duplicate_is_unreachable
    (stoi : String → Option Int) (stof : String → Option f32)
    (p : ArgParser) (i j : Nat) (a b : ArgumentData) (k : String)
    (hij : i < j) (ha : p.arguments[i]? = some a) (hb : p.arguments[j]? = some b)
    (hka : k ∈ a.triggerKeys) (_hkb : k ∈ b.triggerKeys) :
    ∃ (n : Nat) (c : ArgumentData), n ≤ i ∧ p.arguments[n]? = some c ∧
      p.searchByKey k = (n : Int) ∧ p.searchByKey k ≠ (j : Int) ∧
      (∀ rest q, (parseIteration stoi stof p k rest = .advance1 q ∨
          parseIteration stoi stof p k rest = .advance2 q) → q.arguments[j]? = some b) ∧
      (p.getArgumentString k).2 =
        (if c.type = .STRING then .returned c.stringValue
         else .thrown (.keyIsNotA "String" c.triggerKeys)) ∧
      (p.getArgumentI32 k).2 =
        (if c.type = .I32 then .returned c.value.i32Value
         else .thrown (.keyIsNotA "i32" c.triggerKeys)) ∧
      (p.getArgumentF32 k).2 =
        (if c.type = .F32 then .returned c.value.f32Value
         else .thrown (.keyIsNotA "f32" c.triggerKeys)) ∧
      (p.getArgumentBool k).2 =
        (if c.type = .BOOL then .returned c.value.boolValue
         else .thrown (.keyIsNotA "bool" c.triggerKeys)) := by
  rcases searchByKey_cases p k with h | ⟨n, c, hf, hs⟩
  · exact absurd hka ((searchByKey_invalid_iff p k).1 h a (List.getElem?_mem ha))
  · have hni : n ≤ i := by
      by_contra hc
      exact hf.2.2 i a (Nat.lt_of_not_le hc) ha hka
    have hnj : n ≠ j := by omega
    refine ⟨n, c, hni, hf.1, hs, ?_, ?_, ?_, ?_, ?_, ?_⟩
    · rw [hs]
      intro hc
      exact hnj (by exact_mod_cast hc)
    · intro rest q hq
      rcases parseIteration_cases stoi stof p k rest with ⟨e, he⟩ | ⟨q2, hq2, hcase⟩
      · rcases hq with h | h <;> rw [he] at h <;> cases h
      · have hqq : q2 = q := by
          rcases hq with h | h <;> rcases hq2 with h2 | h2 <;> rw [h2] at h <;> cases h <;> rfl
        subst hqq
        rcases hcase with rfl | ⟨n2, c2, d, hf2, -, rfl⟩
        · exact hb
        · obtain ⟨hn, -⟩ := firstMatch_unique p.arguments k n n2 c c2 hf hf2
          subst hn
          rw [getElem?_setArgument_ne p n j d hnj]
          exact hb
    · unfold ArgParser.getArgumentString
      rw [getValue_found _ _ _ _ k n c hf]
      by_cases h : c.type = .STRING <;> simp [h]
    · unfold ArgParser.getArgumentI32
      rw [getValue_found _ _ _ _ k n c hf]
      by_cases h : c.type = .I32 <;> simp [h]
    · unfold ArgParser.getArgumentF32
      rw [getValue_found _ _ _ _ k n c hf]
      by_cases h : c.type = .F32 <;> simp [h]
    · unfold ArgParser.getArgumentBool
      rw [getValue_found _ _ _ _ k n c hf]
      by_cases h : c.type = .BOOL <;> simp [h]

/-- Witness of C20 (amended): the STRING and the INT32 argument sharing the key `-k`;
lookup, an iteration at `-k` and `getArgument` all go to record 0. -/
theorem C20_later_duplicate_is_unreachable_witness :
    ∃ (n : Nat) (c : ArgumentData), n ≤ 0 ∧
      (ArgParser.declared "" [.string ["-k"] "" false "a", .i32 ["-k"] "" false 0]
        ).arguments[n]? = some c ∧
      (ArgParser.declared "" [.string ["-k"] "" false "a", .i32 ["-k"] "" false 0]
        ).searchByKey "-k" = (n : Int) ∧
      (ArgParser.declared "" [.string ["-k"] "" false "a", .i32 ["-k"] "" false 0]
        ).searchByKey "-k" ≠ ((1 : Nat) : Int) :=
  (fun h => h.elim (fun n hn => hn.elim (fun c hc =>
      ⟨n, c, hc.1, hc.2.1, hc.2.2.1, hc.2.2.2.1⟩)))
    (C20_later_duplicate_is_unreachable stdStoi stofTable
      (ArgParser.declared "" [.string ["-k"] "" false "a", .i32 ["-k"] "" false 0]) 0 1
      { triggerKeys := ["-k"], description := "", stringValue := "a",
        defaultStringValue := "a", type := .STRING, value := ArgumentValue.init,
        defaultValue := ArgumentValue.init, isRequired := false, provided := false }
      { triggerKeys := ["-k"], description := "", stringValue := "",
        defaultStringValue := "", type := .I32, value := ArgumentValue.init,
        defaultValue := ArgumentValue.init, isRequired := false, provided := false }
      "-k" (by decide) (by rfl) (by rfl) (by decide) (by decide))

/-- C21. A failed parse is not rolled back: for every freshly declared parser with a STRING
argument reachable by key `k`, every string `v` different from its default and every token
`u` that is not a declared trigger key, `parse([prog, k, v, u])` throws the key-not-found
error for `u`; afterwards `getArgument<String>(k)` returns `v`, and every other argument is
not marked provided and holds the default of its declaration. -/
theorem C21_failed_parse_is_not_rolled_back
    (stoi : String → Option Int) (stof : String → Option f32)
    (description : String) (declarations : List Declaration) (prog k v u : String)
    (idx : Nat) (a : ArgumentData)
    (hk : (ArgParser.declared description declarations).searchByKey k = (idx : Int))
    (ha : (ArgParser.declared description declarations).arguments[idx]? = some a)
    (hty : a.type = .STRING) (_hv : v ≠ a.defaultStringValue)
    (hu : ∀ d ∈ (ArgParser.declared description declarations).arguments, u ∉ d.triggerKeys) :
    ((ArgParser.declared description declarations).parse stoi stof [prog, k, v, u]).2 =
        .thrown (.keyNotFound u) ∧
      (((ArgParser.declared description declarations).parse stoi stof
        [prog, k, v, u]).1.getArgumentString k).2 = .returned v ∧
      ∀ (j : Nat) (d : Declaration), j ≠ idx → declarations[j]? = some d →
        ∃ c, ((ArgParser.declared description declarations).parse stoi stof
            [prog, k, v, u]).1.arguments[j]? = some c ∧
          c.provided = false ∧ c.currentValue = d.typedDefault := by
  obtain ⟨hprov, -, -⟩ := declared_fresh description declarations
  obtain ⟨a2, hf⟩ := firstMatch_of_searchByKey _ k idx hk
  have ha2 : a2 = a := Option.some.inj (hf.1.symm.trans ha)
  subst ha2
  have hfr := firstMatch_reset _ k idx a2 hf
  have hrty : (resetArgument a2).type = .STRING := by
    rw [type_of_decl_eq a2 _ (decl_resetArgument a2)]
    exact hty
  rw [parse_value_then_unknown stoi stof _ prog k v u idx a2 hf hty hu]
  refine ⟨rfl, ?_, ?_⟩
  · have hset := sameDeclarations_setArgument
      (ArgParser.declared description declarations).reset idx (resetArgument a2)
      { resetArgument a2 with stringValue := v, provided := true } hfr.1 rfl
    have hdecl := ((sameDeclarations_reset _).trans hset).1
    obtain ⟨b, hb, -⟩ := firstMatch_congr _ _ hdecl k idx a2 hf
    have hbe : b = { resetArgument a2 with stringValue := v, provided := true } :=
      Option.some.inj (hb.1.symm.trans
        (getElem?_setArgument_eq _ idx (resetArgument a2) _ hfr.1))
    unfold ArgParser.getArgumentString
    rw [getValue_found _ _ _ _ k idx b hb, hbe]
    simp [hrty]
  · intro j d hj hd
    obtain ⟨c, hc, hcd⟩ :=
      declaredBy_record (declaredBy_declared stoi stof description declarations) j d hd
    refine ⟨resetArgument c, ?_, ?_, ?_⟩
    · show (((ArgParser.declared description declarations).reset.setArgument idx _
        ).arguments)[j]? = _
      rw [getElem?_setArgument_ne _ idx j _ (Ne.symm hj), getElem?_reset, hc]
      rfl
    · rw [provided_resetArgument]
      exact hprov c (List.getElem?_mem hc)
    · rw [currentValue_resetArgument, declaredDefault_of_decl c d hcd]

/-- Witness of C21: the parser of the test suite on `program -v 2.0.0 -t`. -/
theorem C21_failed_parse_is_not_rolled_back_witness :
    (testParser.parse stdStoi stofTable ["program", "-v", "2.0.0", "-t"]).2 =
        .thrown (.keyNotFound "-t") ∧
      ((testParser.parse stdStoi stofTable
        ["program", "-v", "2.0.0", "-t"]).1.getArgumentString "-v").2 = .returned "2.0.0" ∧
      ∃ c, (testParser.parse stdStoi stofTable
          ["program", "-v", "2.0.0", "-t"]).1.arguments[2]? = some c ∧
        c.provided = false ∧ c.currentValue = .f32 { bits := 0x3F800000 } :=
  (fun h => ⟨h.1, h.2.1,
      h.2.2 2 (.f32 ["-r", "--radius"] "Show the radius of the program" true
        { bits := 0x3F800000 }) (by decide) (by rfl)⟩)
    (C21_failed_parse_is_not_rolled_back stdStoi stofTable
      "This is the description of the parser" testDeclarations "program" "-v" "2.0.0" "-t" 0
      { triggerKeys := ["-v", "--version"], description := "Show the version of the program",
        stringValue := "1.0.0", defaultStringValue := "1.0.0", type := .STRING,
        value := ArgumentValue.init, defaultValue := ArgumentValue.init,
        isRequired := false, provided := false }
      (by rfl) (by rfl) (by rfl) (by decide) (by decide))

/-- C22. Declarations are preserved: in every parser state and for every token vector,
`parse` (whether it returns or throws), `reset` and `getArgument` keep the number and the
order of the declared arguments and the trigger keys, description, kind, `isRequired` flag
and stored default of each, as well as the required-index list; `addArgument` appends
exactly one record, the one of the declaration, at the end and leaves the existing records
as they are. -/
theorem C22_declarations_are_preserved
    (stoi : String → Option Int) (stof : String → Option f32)
    (p : ArgParser) (argv : List String) (key : String) (d : Declaration) :
    ((p.parse stoi stof argv).1.decls = p.decls ∧
        (p.parse stoi stof argv).1.arguments.length = p.arguments.length ∧
        (p.parse stoi stof argv).1.requiredArgumentIndexes = p.requiredArgumentIndexes) ∧
      (p.reset.decls = p.decls ∧ p.reset.arguments.length = p.arguments.length ∧
        p.reset.requiredArgumentIndexes = p.requiredArgumentIndexes) ∧
      ((p.getArgumentString key).1 = p ∧ (p.getArgumentI32 key).1 = p ∧
        (p.getArgumentF32 key).1 = p ∧ (p.getArgumentBool key).1 = p) ∧
      ∃ a, (p.declare d).arguments = p.arguments ++ [a] ∧ a.decl = d.decl := by
  have hlen : ∀ q : ArgParser, q.decls = p.decls → q.arguments.length = p.arguments.length := by
    intro q hq
    have := congrArg List.length hq
    simpa [ArgParser.decls] using this
  have hparse := parse_sameDeclarations stoi stof p argv
  have hreset := sameDeclarations_reset p
  refine ⟨⟨hparse.1, hlen _ hparse.1, hparse.2.1⟩, ⟨hreset.1, hlen _ hreset.1, hreset.2.1⟩,
    ⟨getValue_state _ _ _ p key, getValue_state _ _ _ p key, getValue_state _ _ _ p key,
      getValue_state _ _ _ p key⟩, ?_⟩
  obtain ⟨a, -, ha, -⟩ := declare_eq p d
  refine ⟨a, ha, ?_⟩
  have h1 := declare_decls p d
  rw [ArgParser.decls, ha, List.map_append, List.map_singleton] at h1
  have h2 : [a.decl] = [d.decl] := List.append_cancel_left h1
  exact List.head_eq_of_cons_eq h2

/-- Counterexample to C23 as stated, on three registries with a required BOOL flag.
(1) With a further required argument `-n`: `parse([prog, --flag, -v, x])` throws the
missing-required error for `-n`, not for the flag, and `parse([prog, -v, x, --flag])` throws
it as well instead of succeeding.
(2) With the other key an alias of the flag itself: `parse([prog, -u, --use-color, true])`
returns without error.
(3) With the other key being the string `true`: `parse([prog, --flag, true, x])` takes
`true` as the value of the flag and throws the key-not-found error for `x`. -/
theorem C23_counterexample :
    ((ArgParser.declared "" [.i32 ["-n"] "" true 0, .bool ["--flag"] "" true false,
        .string ["-v"] "" false "d"]).parse stdStoi stofTable
        ["prog", "--flag", "-v", "x"]).2 = .thrown (.requiredNotProvided ["-n"]) ∧
      ((ArgParser.declared "" [.i32 ["-n"] "" true 0, .bool ["--flag"] "" true false,
        .string ["-v"] "" false "d"]).parse stdStoi stofTable
        ["prog", "-v", "x", "--flag"]).2 = .thrown (.requiredNotProvided ["-n"]) ∧
      ((ArgParser.declared "" [.bool ["-u", "--use-color"] "" true false]).parse
        stdStoi stofTable ["prog", "-u", "--use-color", "true"]).2 = .returned () ∧
      ((ArgParser.declared "" [.bool ["--flag"] "" true false,
        .string ["true"] "" false "d"]).parse stdStoi stofTable
        ["prog", "--flag", "true", "x"]).2 = .thrown (.keyNotFound "x") := by
  refine ⟨by rfl, by rfl, by rfl, by rfl⟩

/-- C23, amended. For every freshly declared parser with a required BOOL argument reachable
by key `b` and a key `k`, neither `true` nor `false`, that resolves to another argument,
with a value `v` that is `true` or `false` when that argument is a BOOL one, and with no
third argument required: `parse([prog, b, k, v])` throws the missing-required error for the
BOOL argument and leaves it not provided with its value at the declared default, whereas
`parse([prog, k, v, b])` returns without error and `getArgument<bool>(b)` is then true. -/
theorem C23_bare_required_flag_before_key
    (stoi : String → Option Int) (stof : String → Option f32)
    (description : String) (declarations : List Declaration) (prog b k v : String)
    (idx n : Nat) (a c : ArgumentData)
    (hb : (ArgParser.declared description declarations).searchByKey b = (idx : Int))
    (ha : (ArgParser.declared description declarations).arguments[idx]? = some a)
    (hta : a.type = .BOOL) (hra : a.isRequired = true)
    (hk : (ArgParser.declared description declarations).searchByKey k = (n : Int))
    (hc : (ArgParser.declared description declarations).arguments[n]? = some c)
    (hne : n ≠ idx) (hklit : k ≠ "true" ∧ k ≠ "false")
    (hv : c.type = .BOOL → v = "true" ∨ v = "false")
    (hreq : ∀ (j : Nat) (e : ArgumentData), j ≠ idx → j ≠ n →
      (ArgParser.declared description declarations).arguments[j]? = some e →
      e.isRequired = false) :
    ((ArgParser.declared description declarations).parse stoi stof [prog, b, k, v]).2 =
        .thrown (.requiredNotProvided a.triggerKeys) ∧
      (∃ a2, ((ArgParser.declared description declarations).parse stoi stof
          [prog, b, k, v]).1.arguments[idx]? = some a2 ∧
        a2.provided = false ∧ a2.currentValue = a.declaredDefault) ∧
      ((ArgParser.declared description declarations).parse stoi stof [prog, k, v, b]).2 =
        .returned () ∧
      (((ArgParser.declared description declarations).parse stoi stof
        [prog, k, v, b]).1.getArgumentBool b).2 = .returned true := by
  obtain ⟨hprov, -, hcons⟩ := declared_fresh description declarations
  obtain ⟨a0, hfb⟩ := firstMatch_of_searchByKey _ b idx hb
  have ha0 : a0 = a := Option.some.inj (hfb.1.symm.trans ha)
  subst ha0
  obtain ⟨c0, hfk⟩ := firstMatch_of_searchByKey _ k n hk
  have hc0 : c0 = c := Option.some.inj (hfk.1.symm.trans hc)
  subst hc0
  have hfbr := firstMatch_reset _ b idx a0 hfb
  have hfkr := firstMatch_reset _ k n c0 hfk
  have hrta : (resetArgument a0).type = .BOOL :=
    (type_of_decl_eq a0 _ (decl_resetArgument a0)).trans hta
  have hrv : (resetArgument c0).type = .BOOL → v = "true" ∨ v = "false" := by
    intro h
    apply hv
    rw [← type_of_decl_eq c0 _ (decl_resetArgument c0)]
    exact h
  have hrkeys : (resetArgument a0).triggerKeys = a0.triggerKeys :=
    triggerKeys_of_decl_eq a0 _ (decl_resetArgument a0)
  have hrnp : (resetArgument a0).provided = false := by
    rw [provided_resetArgument]
    exact hprov a0 (List.getElem?_mem hfb.1)
  have honly : ∀ i, i ∈ (ArgParser.declared description declarations).requiredArgumentIndexes →
      i = idx ∨ i = n := by
    intro i hi
    obtain ⟨e, he, her⟩ := (hcons i).1 hi
    by_contra hcon
    rw [not_or] at hcon
    rw [hreq i e hcon.1 hcon.2 he] at her
    cases her
  have hklit2 : ¬ (k = "true" ∨ k = "false") := fun h => h.elim hklit.1 hklit.2
  refine ⟨?_, ?_, ?_⟩
  · -- the flag first
    have hit1 := parseIteration_bool_other stoi stof
      (ArgParser.declared description declarations).reset b k [v] idx (resetArgument a0)
      hfbr hrta hklit2
    obtain ⟨c1, hit2, -, hcp⟩ := parseIteration_pair stoi stof
      (ArgParser.declared description declarations).reset k v [] n (resetArgument c0) hfkr hrv
    have hL : parseLoop stoi stof (ArgParser.declared description declarations).reset
        ([prog, b, k, v].drop 1) =
        ((ArgParser.declared description declarations).reset.setArgument n c1,
          .returned ()) := by
      show parseLoop stoi stof _ [b, k, v] = _
      rw [parseLoop_advance1 stoi stof _ _ b [k, v] hit1,
        parseLoop_advance2 stoi stof _ _ k [v] hit2]
      exact parseLoop_nil stoi stof _
    have hqidx : ((ArgParser.declared description declarations).reset.setArgument n c1
        ).arguments[idx]? = some (resetArgument a0) := by
      rw [getElem?_setArgument_ne _ n idx c1 hne]
      exact hfbr.1
    have hcheck := checkRequired_only_missing
      ((ArgParser.declared description declarations).reset.setArgument n c1)
      (ArgParser.declared description declarations).requiredArgumentIndexes idx
      (resetArgument a0)
      (by
        intro i hi hidx
        rcases honly i hi with h | h
        · exact absurd h hidx
        · subst h
          exact ⟨c1, getElem?_setArgument_eq _ i (resetArgument c0) c1 hfkr.1, hcp⟩)
      ((hcons idx).2 ⟨a0, hfb.1, hra⟩) hqidx hrnp
    have hp := parse_of_check_thrown stoi stof _ _ [prog, b, k, v] _ hL hcheck
    rw [hp, hrkeys]
  · obtain ⟨c1, hit2, -, -⟩ := parseIteration_pair stoi stof
      (ArgParser.declared description declarations).reset k v [] n (resetArgument c0) hfkr hrv
    refine ⟨resetArgument a0, ?_, hrnp, currentValue_resetArgument a0⟩
    rw [(parse_arguments stoi stof _ [prog, b, k, v]).1]
    show (parseLoop stoi stof _ [b, k, v]).1.arguments[idx]? = _
    have hit1 := parseIteration_bool_other stoi stof
      (ArgParser.declared description declarations).reset b k [v] idx (resetArgument a0)
      hfbr hrta hklit2
    rw [parseLoop_advance1 stoi stof _ _ b [k, v] hit1,
      parseLoop_advance2 stoi stof _ _ k [v] hit2]
    show (parseLoop stoi stof _ []).1.arguments[idx]? = _
    rw [parseLoop_nil, getElem?_setArgument_ne _ n idx c1 hne]
    exact hfbr.1
  · -- the flag last
    obtain ⟨c2, hit3, hcd, hcp⟩ := parseIteration_pair stoi stof
      (ArgParser.declared description declarations).reset k v [b] n (resetArgument c0) hfkr hrv
    have hq2idx : ((ArgParser.declared description declarations).reset.setArgument n c2
        ).arguments[idx]? = some (resetArgument a0) := by
      rw [getElem?_setArgument_ne _ n idx c2 hne]
      exact hfbr.1
    have hset2 := sameDeclarations_setArgument
      (ArgParser.declared description declarations).reset n (resetArgument c0) c2 hfkr.1 hcd
    have hd2 := ((sameDeclarations_reset _).trans hset2).1
    obtain ⟨b2, hfb2, -⟩ := firstMatch_congr _ _ hd2 b idx a0 hfb
    have hb2 : b2 = resetArgument a0 := Option.some.inj (hfb2.1.symm.trans hq2idx)
    subst hb2
    have hit4 := parseIteration_bool_last stoi stof _ b idx (resetArgument a0) hfb2 hrta
    have hL : parseLoop stoi stof (ArgParser.declared description declarations).reset
        ([prog, k, v, b].drop 1) =
        (((ArgParser.declared description declarations).reset.setArgument n c2).setArgument
          idx { resetArgument a0 with
                value := { (resetArgument a0).value with boolValue := true }
                provided := true },
          .returned ()) := by
      show parseLoop stoi stof _ [k, v, b] = _
      rw [parseLoop_advance2 stoi stof _ _ k [v, b] hit3]
      show parseLoop stoi stof _ [b] = _
      rw [parseLoop_advance1 stoi stof _ _ b [] hit4]
      exact parseLoop_nil stoi stof _
    have hq3idx := getElem?_setArgument_eq
      ((ArgParser.declared description declarations).reset.setArgument n c2) idx
      (resetArgument a0)
      { resetArgument a0 with
        value := { (resetArgument a0).value with boolValue := true }
        provided := true } hq2idx
    have hcheck : checkRequired
        (((ArgParser.declared description declarations).reset.setArgument n c2).setArgument
          idx { resetArgument a0 with
                value := { (resetArgument a0).value with boolValue := true }
                provided := true })
        (ArgParser.declared description declarations).requiredArgumentIndexes =
        .returned () := by
      rw [checkRequired_returned_iff]
      intro i hi
      rcases honly i hi with h | h
      · subst h
        exact ⟨_, hq3idx, rfl⟩
      · subst h
        refine ⟨c2, ?_, hcp⟩
        rw [getElem?_setArgument_ne _ idx i _ (Ne.symm hne)]
        exact getElem?_setArgument_eq _ i (resetArgument c0) c2 hfkr.1
    have hp := parse_of_check_returned stoi stof _ _ [prog, k, v, b] hL hcheck
    rw [hp]
    refine ⟨rfl, ?_⟩
    have hset3 := sameDeclarations_setArgument
      ((ArgParser.declared description declarations).reset.setArgument n c2) idx
      (resetArgument a0)
      { resetArgument a0 with
        value := { (resetArgument a0).value with boolValue := true }
        provided := true } hq2idx rfl
    have hd3 := (((sameDeclarations_reset _).trans hset2).trans hset3).1
    obtain ⟨b3, hfb3, -⟩ := firstMatch_congr (ArgParser.declared description declarations)
      { (((ArgParser.declared description declarations).reset.setArgument n c2).setArgument
          idx { resetArgument a0 with
                value := { (resetArgument a0).value with boolValue := true }
                provided := true }) with m_isParsed := true } hd3 b idx a0 hfb
    have hb3 : b3 = { resetArgument a0 with
        value := { (resetArgument a0).value with boolValue := true }
        provided := true } := Option.some.inj (hfb3.1.symm.trans hq3idx)
    unfold ArgParser.getArgumentBool
    rw [getValue_found _ _ _ _ b idx b3 hfb3, hb3]
    simp [hrta]

/-- Witness of C23 (amended): a required flag `--use-color` and the optional STRING
argument `-v`; `prog --use-color -v 2.0.0` misses the flag, `prog -v 2.0.0 --use-color`
sets it. -/
theorem C23_bare_required_flag_before_key_witness :
    ((ArgParser.declared "" [.bool ["--use-color"] "" true false,
        .string ["-v", "--version"] "" false "1.0.0"]).parse stdStoi stofTable
        ["prog", "--use-color", "-v", "2.0.0"]).2 =
        .thrown (.requiredNotProvided ["--use-color"]) ∧
      (∃ a2, ((ArgParser.declared "" [.bool ["--use-color"] "" true false,
          .string ["-v", "--version"] "" false "1.0.0"]).parse stdStoi stofTable
          ["prog", "--use-color", "-v", "2.0.0"]).1.arguments[0]? = some a2 ∧
        a2.provided = false ∧ a2.currentValue = .bool false) ∧
      ((ArgParser.declared "" [.bool ["--use-color"] "" true false,
        .string ["-v", "--version"] "" false "1.0.0"]).parse stdStoi stofTable
        ["prog", "-v", "2.0.0", "--use-color"]).2 = .returned () ∧
      (((ArgParser.declared "" [.bool ["--use-color"] "" true false,
        .string ["-v", "--version"] "" false "1.0.0"]).parse stdStoi stofTable
        ["prog", "-v", "2.0.0", "--use-color"]).1.getArgumentBool "--use-color").2 =
        .returned true :=
  C23_bare_required_flag_before_key stdStoi stofTable ""
    [.bool ["--use-color"] "" true false, .string ["-v", "--version"] "" false "1.0.0"]
    "prog" "--use-color" "-v" "2.0.0" 0 1
    { triggerKeys := ["--use-color"], description := "", stringValue := "",
      defaultStringValue := "", type := .BOOL, value := ArgumentValue.init,
      defaultValue := ArgumentValue.init, isRequired := true, provided := false }
    { triggerKeys := ["-v", "--version"], description := "", stringValue := "1.0.0",
      defaultStringValue := "1.0.0", type := .STRING, value := ArgumentValue.init,
      defaultValue := ArgumentValue.init, isRequired := false, provided := false }
    (by rfl) (by rfl) (by rfl) (by rfl) (by rfl) (by rfl) (by decide) (by decide)
    (by decide)
    (by
      intro j e hj0 hj1 he
      match j, hj0, hj1, he with
      | 0, hj0, _, _ => exact absurd rfl hj0
      | 1, _, hj1, _ => exact absurd rfl hj1
      | (m + 2), _, _, he => cases he)

end NTT
